import Mathlib

/-!
# Student database (script.js): a shallow embedding

The page keeps a roster `students` of records in memory, mirrors it to
`localStorage` after every mutation and offers create / update / delete /
search.  The embedding below is state passing: every handler of `script.js`
becomes a function on `State`; the clock (`Date.now()`, `new Date()`), the
answer to `confirm` and the content of the form are inputs.

JavaScript strings are sequences of UTF-16 code units, and `length`, `===`,
`includes`, `trim` and the regular expression all work on code units, so a
string is modelled as the list of its code units.
-/

namespace StudentDB

/-! ## Strings -/

/-- A JavaScript string, as the sequence of its UTF-16 code units. -/
abbrev JSString := List Nat

/-- UTF-16 code units of one Unicode scalar value. -/
def utf16Char (c : Char) : List Nat :=
  if c.toNat < 65536 then [c.toNat]
  else [55296 + (c.toNat - 65536) / 1024, 56320 + (c.toNat - 65536) % 1024]

/-- The JavaScript string written by a literal. -/
def js (s : String) : JSString := s.data.flatMap utf16Char

/-- Code units removed by `String.prototype.trim`: WhiteSpace (TAB, VT, FF,
SP, NBSP, ZWNBSP and the Unicode category Zs) and LineTerminator
(LF, CR, LS, PS). -/
def isWhiteSpace (c : Nat) : Bool :=
  c == 9 || c == 10 || c == 11 || c == 12 || c == 13 || c == 32 || c == 160 ||
  c == 5760 || (8192 ≤ c && c ≤ 8202) || c == 8232 || c == 8233 || c == 8239 ||
  c == 8287 || c == 12288 || c == 65279

/-- The method `String.prototype.trim`. -/
def trim (s : JSString) : JSString :=
  ((s.dropWhile isWhiteSpace).reverse.dropWhile isWhiteSpace).reverse

/-- The method `String.prototype.includes`: `t` occurs in `s` as a run of
consecutive code units. -/
def includes (s t : JSString) : Bool :=
  s.tails.any (fun u => t.isPrefixOf u)

/-- ASCII letters folded to lower case, other code units kept.  The host
function `String.prototype.toLowerCase` agrees with it on ASCII strings; the
handlers below take the host function as a parameter `lower`. -/
def asciiToLowerCase (s : JSString) : JSString :=
  s.map (fun c => if 65 ≤ c ∧ c ≤ 90 then c + 32 else c)

/-- Decimal digits of `n`, most significant first, with `fuel` bounding the
number of digits. -/
def decimalDigits : Nat → Nat → JSString
  | 0, _ => []
  | fuel + 1, n =>
    if n < 10 then [n + 48] else decimalDigits fuel (n / 10) ++ [n % 10 + 48]

/-- The string `Date.now().toString()` for the clock reading `n` (milliseconds
since the epoch, a non-negative integer below 10^21, which JavaScript prints in
plain decimal). -/
def numberToString (n : Nat) : JSString := decimalDigits (n + 1) n

/-- Truthiness of a string: the empty string is falsy. -/
def truthy (s : JSString) : Bool := !s.isEmpty

/-- The test `/^\d{10}$/.test(s)`: exactly ten code units, each in `0`..`9`. -/
def mobilePattern (s : JSString) : Bool :=
  s.length == 10 && s.all (fun c => 48 ≤ c && c ≤ 57)

/-! ## Records -/

/-- A record of `students`: built by `createStudent` (the first six fields)
and extended with `updatedAt` by `updateStudent`. -/
structure Student where
  id : JSString
  name : JSString
  rollno : JSString
  std : JSString
  mobile : JSString
  createdAt : JSString
  updatedAt : Option JSString
  deriving DecidableEq, Repr

/-- The object `studentData` built by `handleFormSubmit`. -/
structure StudentData where
  name : JSString
  rollno : JSString
  std : JSString
  mobile : JSString
  deriving DecidableEq, Repr

/-- Raw values of the four form inputs at the time of a submit. -/
structure FormInput where
  name : JSString
  rollno : JSString
  std : JSString
  mobile : JSString
  deriving DecidableEq, Repr

/-! ## Serialization: `JSON.stringify(students)` -/

/-- One lower-case hexadecimal digit, as a code unit. -/
def hexDigit (n : Nat) : Nat := if n < 10 then 48 + n else 87 + n

/-- The escape `\uXXXX` of QuoteJSONString (UnicodeEscape). -/
def unicodeEscape (c : Nat) : JSString :=
  [92, 117, hexDigit (c / 4096 % 16), hexDigit (c / 256 % 16),
    hexDigit (c / 16 % 16), hexDigit (c % 16)]

/-- A leading (high) surrogate. -/
def isHighSurrogate (c : Nat) : Bool := 55296 ≤ c && c ≤ 56319

/-- A trailing (low) surrogate. -/
def isLowSurrogate (c : Nat) : Bool := 56320 ≤ c && c ≤ 57343

/-- Escape of a single code unit that is not half of a surrogate pair:
the two-character escapes, `\uXXXX` for other control characters and for
lone surrogates, the code unit itself otherwise. -/
def quoteUnit (c : Nat) : JSString :=
  if c = 8 then [92, 98]
  else if c = 9 then [92, 116]
  else if c = 10 then [92, 110]
  else if c = 12 then [92, 102]
  else if c = 13 then [92, 114]
  else if c = 34 then [92, 34]
  else if c = 92 then [92, 92]
  else if c < 32 then unicodeEscape c
  else if isHighSurrogate c || isLowSurrogate c then unicodeEscape c
  else [c]

/-- The body of QuoteJSONString: the string is read code point by code point,
a high surrogate followed by a low surrogate is one code point and is copied. -/
def quoteBody : JSString → JSString
  | [] => []
  | [c] => quoteUnit c
  | c :: d :: rest =>
    if isHighSurrogate c && isLowSurrogate d then c :: d :: quoteBody rest
    else quoteUnit c ++ quoteBody (d :: rest)

/-- QuoteJSONString: the JSON text of a string value. -/
def quoteJSONString (s : JSString) : JSString := 34 :: (quoteBody s ++ [34])

/-- One member `"key":"value"` of a serialized object. -/
def stringifyMember (key : String) (value : JSString) : JSString :=
  quoteJSONString (js key) ++ [58] ++ quoteJSONString value

/-- The JSON text of one record: its own properties in creation order;
`updatedAt` is present only after an update. -/
def stringifyStudent (s : Student) : JSString :=
  [123] ++ stringifyMember "id" s.id ++ [44] ++ stringifyMember "name" s.name ++ [44] ++
    stringifyMember "rollno" s.rollno ++ [44] ++ stringifyMember "std" s.std ++ [44] ++
    stringifyMember "mobile" s.mobile ++ [44] ++ stringifyMember "createdAt" s.createdAt ++
    (match s.updatedAt with
      | none => []
      | some u => [44] ++ stringifyMember "updatedAt" u) ++ [125]

/-- Elements of a serialized array, separated by commas. -/
def stringifyElements : List Student → JSString
  | [] => []
  | [s] => stringifyStudent s
  | s :: t :: rest => stringifyStudent s ++ [44] ++ stringifyElements (t :: rest)

/-- The text `JSON.stringify(students)`. -/
def JSON_stringify (students : List Student) : JSString :=
  [91] ++ stringifyElements students ++ [93]

/-! ## Program state and handlers -/

/-- State of the page: the globals `students` and `editingId`, the value kept
under the key `students` in `localStorage`, the number of `setItem` calls, the
`alert` messages shown so far (latest last) and the list last handed to the
student list for rendering. -/
structure State where
  students : List Student
  editingId : Option JSString
  storage : Option JSString
  writes : Nat
  alerts : List String
  displayed : List Student
  deriving DecidableEq, Repr

/-- State after the script has loaded with nothing stored. -/
def State.empty : State :=
  { students := [], editingId := none, storage := none, writes := 0, alerts := [],
    displayed := [] }

/-- The call `alert(msg)`. -/
def alert (w : State) (msg : String) : State :=
  { w with alerts := w.alerts ++ [msg] }

/-- The function `saveToLocalStorage`. -/
def saveToLocalStorage (w : State) : State :=
  { w with storage := some (JSON_stringify w.students), writes := w.writes + 1 }

/-- The function `displayStudents(filteredStudents = null)`: an array, empty
or not, is truthy, so the roster is shown only when no list is passed.  When
the list is empty the student list is hidden, so nothing is shown. -/
def displayStudents (w : State) (filteredStudents : Option (List Student)) : State :=
  match filteredStudents with
  | some filtered => { w with displayed := filtered }
  | none => { w with displayed := w.students }

/-- The function `resetForm`. -/
def resetForm (w : State) : State :=
  { w with editingId := none }

/-- The function `validateStudentData`: the result and the state after the
alert of the first failing field. -/
def validateStudentData (w : State) (data : StudentData) : Bool × State :=
  if !truthy data.name || data.name.length < 2 then
    (false, alert w "Please enter a valid student name (at least 2 characters)")
  else if !truthy data.rollno then
    (false, alert w "Please enter a roll number")
  else if !truthy data.std then
    (false, alert w "Please enter standard/class")
  else if !truthy data.mobile || !mobilePattern data.mobile then
    (false, alert w "Please enter a valid 10-digit mobile number")
  else (true, w)

/-- The function `createStudent`; `now` is the reading of `Date.now()` and
`iso` the text `new Date().toISOString()`. -/
def createStudent (w : State) (data : StudentData) (now : Nat) (iso : JSString) : State :=
  let newStudent : Student :=
    { id := numberToString now, name := data.name, rollno := data.rollno, std := data.std,
      mobile := data.mobile, createdAt := iso, updatedAt := none }
  let w1 := { w with students := w.students ++ [newStudent] }
  alert (saveToLocalStorage w1) "Student added successfully!"

/-- The method `Array.prototype.findIndex`, with `none` for `-1`. -/
def findIndex (p : Student → Bool) : List Student → Option Nat
  | [] => none
  | s :: rest => if p s then some 0 else (findIndex p rest).map (· + 1)

/-- The object `updateStudent` stores at the index found: the properties of
`cur`, overwritten by the four of `studentData`, then `updatedAt`. -/
def updatedRecord (cur : Student) (data : StudentData) (iso : JSString) : Student :=
  { cur with name := data.name, rollno := data.rollno, std := data.std,
             mobile := data.mobile, updatedAt := some iso }

/-- The function `updateStudent`; `iso` is `new Date().toISOString()`. -/
def updateStudent (w : State) (id : JSString) (data : StudentData) (iso : JSString) : State :=
  match findIndex (fun s => s.id == id) w.students with
  | none => w
  | some index =>
    match w.students[index]? with
    | none => w
    | some cur =>
      if cur.rollno != data.rollno &&
          w.students.any (fun s => s.rollno == data.rollno && s.id != id) then
        alert w "Roll number already exists!"
      else
        let w1 := { w with students := w.students.set index (updatedRecord cur data iso) }
        alert (saveToLocalStorage w1) "Student updated successfully!"

/-- The function `deleteStudent`; `confirmed` is the answer to `confirm`. -/
def deleteStudent (w : State) (id : JSString) (confirmed : Bool) : State :=
  if confirmed then
    let w1 := { w with students := w.students.filter (fun s => s.id != id) }
    alert (displayStudents (saveToLocalStorage w1) none) "Student deleted successfully!"
  else w

/-- The function `editStudent`, as far as the globals go (the form inputs it
fills are read again at submit time). -/
def editStudent (w : State) (id : JSString) : State :=
  match w.students.find? (fun s => s.id == id) with
  | some _ => { w with editingId := some id }
  | none => w

/-- The function `handleFormSubmit`: `form` holds the raw input values. -/
def handleFormSubmit (w : State) (form : FormInput) (now : Nat) (iso : JSString) : State :=
  let studentData : StudentData :=
    { name := trim form.name, rollno := trim form.rollno, std := trim form.std,
      mobile := trim form.mobile }
  let v := validateStudentData w studentData
  if !v.1 then v.2
  else
    match w.editingId.filter truthy with
    | some id => displayStudents (resetForm (updateStudent w id studentData iso)) none
    | none =>
      if w.students.any (fun s => s.rollno == studentData.rollno) then
        alert w "Roll number already exists!"
      else
        displayStudents (resetForm (createStudent w studentData now iso)) none

/-- The function `filterStudents`; `q` is `searchInput.value` and `lower` the
host function `String.prototype.toLowerCase`. -/
def filterStudents (lower : JSString → JSString) (w : State) (q : JSString) : State :=
  let searchTerm := trim (lower q)
  if searchTerm == [] then displayStudents w none
  else
    let filtered := w.students.filter (fun student =>
      includes (lower student.name) searchTerm ||
      includes (lower student.rollno) searchTerm ||
      includes student.mobile searchTerm)
    displayStudents w (some filtered)

/-! ## Runs of the page -/

/-- What the user can do: press Edit or Delete (any id can be passed, the two
handlers are globals of the window), cancel, submit the form, type a query. -/
inductive Action where
  | edit (id : JSString)
  | cancel
  | submit (form : FormInput) (now : Nat) (iso : JSString)
  | delete (id : JSString) (confirmed : Bool)
  | search (q : JSString)
  deriving DecidableEq, Repr

/-- One handler call. -/
def step (lower : JSString → JSString) (w : State) : Action → State
  | .edit id => editStudent w id
  | .cancel => resetForm w
  | .submit form now iso => handleFormSubmit w form now iso
  | .delete id confirmed => deleteStudent w id confirmed
  | .search q => filterStudents lower w q

/-- State after a sequence of handler calls. -/
def run (lower : JSString → JSString) (w : State) (acts : List Action) : State :=
  acts.foldl (step lower) w

/-- The value `Date.now()` has at each form submission of a run, in order
(`createStudent` is the only reader). -/
def clockReadings : List Action → List Nat
  | [] => []
  | .submit _ now _ :: rest => now :: clockReadings rest
  | _ :: rest => clockReadings rest

/-! ## Deserialization: `JSON.parse(localStorage.getItem('students')) || []` -/

/-- A value produced by `JSON.parse`.  A number is kept as the exact decimal
its literal denotes: sign, digits and power of ten.  The members of an object
are in creation order (keys that are array indices, which no record has, are
not moved to the front). -/
inductive JSON where
  | null
  | bool (b : Bool)
  | number (negative : Bool) (mantissa : Nat) (exponent : Int)
  | string (s : JSString)
  | array (items : List JSON)
  | object (members : List (JSString × JSON))

/-- How the parser model can fail: `syntaxError` is the SyntaxError thrown by
`JSON.parse`; `outOfFuel` is the recursion bound of the model. -/
inductive JSException where
  | syntaxError
  | outOfFuel
  deriving DecidableEq, Repr

/-- JSON white space: TAB, LF, CR and SP are skipped. -/
def skipWhiteSpace (s : JSString) : JSString :=
  s.dropWhile (fun c => c == 9 || c == 10 || c == 13 || c == 32)

/-- Value of one hexadecimal digit of a `\uXXXX` escape, either case. -/
def hexValue (c : Nat) : Option Nat :=
  if 48 ≤ c ∧ c ≤ 57 then some (c - 48)
  else if 97 ≤ c ∧ c ≤ 102 then some (c - 87)
  else if 65 ≤ c ∧ c ≤ 70 then some (c - 55)
  else none

/-- The code unit denoted by a two-character escape. -/
def simpleEscape (c : Nat) : Option Nat :=
  if c = 34 then some 34
  else if c = 92 then some 92
  else if c = 47 then some 47
  else if c = 98 then some 8
  else if c = 102 then some 12
  else if c = 110 then some 10
  else if c = 114 then some 13
  else if c = 116 then some 9
  else none

/-- A decoded code unit put in front of what the rest of the string decodes
to. -/
def prepend (u : Nat) :
    Except JSException (JSString × JSString) → Except JSException (JSString × JSString)
  | .ok (s, r) => .ok (u :: s, r)
  | .error err => .error err

/-- A JSON string after its opening quote: the decoded code units and the
text after the closing quote.  Unescaped control characters are refused. -/
def parseStringBody : JSString → Except JSException (JSString × JSString)
  | [] => .error .syntaxError
  | c :: rest =>
    if c = 34 then .ok ([], rest)
    else if c = 92 then
      match rest with
      | [] => .error .syntaxError
      | e :: rest2 =>
        if e = 117 then
          match rest2 with
          | h1 :: h2 :: h3 :: h4 :: rest3 =>
            match hexValue h1, hexValue h2, hexValue h3, hexValue h4 with
            | some a, some b, some c2, some d =>
              prepend (a * 4096 + b * 256 + c2 * 16 + d) (parseStringBody rest3)
            | _, _, _, _ => .error .syntaxError
          | _ => .error .syntaxError
        else
          match simpleEscape e with
          | some u => prepend u (parseStringBody rest2)
          | none => .error .syntaxError
    else if c < 32 then .error .syntaxError
    else prepend c (parseStringBody rest)

/-- The text after the literal `lit`, when the input starts with it. -/
def dropLiteral : JSString → JSString → Option JSString
  | [], input => some input
  | _ :: _, [] => none
  | a :: lit, c :: input => if a = c then dropLiteral lit input else none

/-- A decimal digit. -/
def isDigit (c : Nat) : Bool := 48 ≤ c && c ≤ 57

/-- The number written by a run of decimal digits. -/
def natOfDigits (ds : List Nat) : Nat :=
  ds.foldl (fun acc d => acc * 10 + (d - 48)) 0

/-- One or more decimal digits: the digits and the rest. -/
def parseDigits (input : JSString) : Except JSException (List Nat × JSString) :=
  if (input.span isDigit).1 = [] then .error .syntaxError else .ok (input.span isDigit)

/-- The optional fraction of a JSON number: its digits and the rest. -/
def parseFraction (input : JSString) : Except JSException (List Nat × JSString) :=
  match input with
  | [] => .ok ([], input)
  | c :: rest => if c = 46 then parseDigits rest else .ok ([], input)

/-- The digits of an exponent with their sign applied. -/
def signedExponent (negative : Bool) :
    Except JSException (List Nat × JSString) → Except JSException (Int × JSString)
  | .ok (ds, r) => .ok (if negative then - (natOfDigits ds : Int) else (natOfDigits ds : Int), r)
  | .error err => .error err

/-- The optional exponent of a JSON number: its value and the rest. -/
def parseExponent (input : JSString) : Except JSException (Int × JSString) :=
  match input with
  | [] => .ok (0, input)
  | c :: rest =>
    if c = 101 ∨ c = 69 then
      match rest with
      | [] => .error .syntaxError
      | sign :: rest2 =>
        if sign = 45 then signedExponent true (parseDigits rest2)
        else if sign = 43 then signedExponent false (parseDigits rest2)
        else signedExponent false (parseDigits (sign :: rest2))
    else .ok (0, input)

/-- The integer part of a JSON number: a single `0`, or a digit `1`..`9`
followed by digits. -/
def parseInteger (input : JSString) : Except JSException (List Nat × JSString) :=
  match input with
  | [] => .error .syntaxError
  | c :: rest =>
    if c = 48 then .ok ([48], rest)
    else if isDigit c then .ok (c :: (rest.span isDigit).1, (rest.span isDigit).2)
    else .error .syntaxError

/-- A JSON number `-? int frac? exp?`. -/
def parseNumber (input : JSString) : Except JSException (JSON × JSString) :=
  let negative := input.head? == some 45
  match parseInteger (if negative then input.tail else input) with
  | .error err => .error err
  | .ok (intDigits, rest1) =>
    match parseFraction rest1 with
    | .error err => .error err
    | .ok (fracDigits, rest2) =>
      match parseExponent rest2 with
      | .error err => .error err
      | .ok (e, rest3) =>
        .ok (.number negative (natOfDigits (intDigits ++ fracDigits))
          (e - (fracDigits.length : Int)), rest3)

/-- Creation of a data property: the value of an existing key is replaced in
place, a new key goes to the end. -/
def setMember (members : List (JSString × JSON)) (key : JSString) (value : JSON) :
    List (JSString × JSON) :=
  match members with
  | [] => [(key, value)]
  | (k, v) :: rest =>
    if k = key then (k, value) :: rest else (k, v) :: setMember rest key value

mutual
/-- One JSON value at the head of the input, after white space. -/
def parseValue : Nat → JSString → Except JSException (JSON × JSString)
  | 0, _ => .error .outOfFuel
  | fuel + 1, input =>
    match skipWhiteSpace input with
    | [] => .error .syntaxError
    | c :: rest =>
      if c = 91 then
        match skipWhiteSpace rest with
        | [] => .error .syntaxError
        | d :: rest2 =>
          if d = 93 then .ok (.array [], rest2) else parseElements fuel [] rest
      else if c = 123 then
        match skipWhiteSpace rest with
        | [] => .error .syntaxError
        | d :: rest2 =>
          if d = 125 then .ok (.object [], rest2) else parseMembers fuel [] rest
      else if c = 34 then
        match parseStringBody rest with
        | .ok (s, r) => .ok (.string s, r)
        | .error err => .error err
      else if c = 116 then
        match dropLiteral [114, 117, 101] rest with
        | some r => .ok (.bool true, r)
        | none => .error .syntaxError
      else if c = 102 then
        match dropLiteral [97, 108, 115, 101] rest with
        | some r => .ok (.bool false, r)
        | none => .error .syntaxError
      else if c = 110 then
        match dropLiteral [117, 108, 108] rest with
        | some r => .ok (.null, r)
        | none => .error .syntaxError
      else parseNumber (c :: rest)
/-- Elements of an array after `[` or `,`, up to and including `]`. -/
def parseElements : Nat → List JSON → JSString → Except JSException (JSON × JSString)
  | 0, _, _ => .error .outOfFuel
  | fuel + 1, acc, input =>
    match parseValue fuel input with
    | .error err => .error err
    | .ok (v, rest) =>
      match skipWhiteSpace rest with
      | [] => .error .syntaxError
      | c :: rest2 =>
        if c = 44 then parseElements fuel (acc ++ [v]) rest2
        else if c = 93 then .ok (.array (acc ++ [v]), rest2)
        else .error .syntaxError
/-- Members of an object after the opening brace or `,`, up to and including
the closing brace. -/
def parseMembers : Nat → List (JSString × JSON) → JSString →
    Except JSException (JSON × JSString)
  | 0, _, _ => .error .outOfFuel
  | fuel + 1, acc, input =>
    match skipWhiteSpace input with
    | [] => .error .syntaxError
    | q :: rest =>
      if q = 34 then
        match parseStringBody rest with
        | .error err => .error err
        | .ok (key, rest1) =>
          match skipWhiteSpace rest1 with
          | [] => .error .syntaxError
          | colon :: rest2 =>
            if colon = 58 then
              match parseValue fuel rest2 with
              | .error err => .error err
              | .ok (v, rest3) =>
                match skipWhiteSpace rest3 with
                | [] => .error .syntaxError
                | c :: rest4 =>
                  if c = 44 then parseMembers fuel (setMember acc key v) rest4
                  else if c = 125 then .ok (.object (setMember acc key v), rest4)
                  else .error .syntaxError
            else .error .syntaxError
      else .error .syntaxError
end

/-- The function `JSON.parse` on a text: one value, white space around it,
nothing else.  The fuel, twice the length of the text and two, bounds the
depth of the recursion and is never used up (`JSON_parse_total`). -/
def JSON_parse (text : JSString) : Except JSException JSON :=
  match parseValue (2 * text.length + 2) text with
  | .error err => .error err
  | .ok (v, rest) =>
    if skipWhiteSpace rest = [] then .ok v else .error .syntaxError

/-- Truthiness of a parsed value, as the operator `||` sees it: `null`,
`false`, the empty string and a number that is zero as a double (the literal
denotes at most 2^-1075 in absolute value) are falsy. -/
def JSON.truthy : JSON → Bool
  | .null => false
  | .bool b => b
  | .number _ mantissa exponent =>
    if 0 ≤ exponent then mantissa != 0
    else !(mantissa * 2 ^ 1075 ≤ 10 ^ exponent.natAbs)
  | .string s => !s.isEmpty
  | .array _ => true
  | .object _ => true

/-- The initial value of `students`,
`JSON.parse(localStorage.getItem('students')) || []`: a missing item is `null`,
which `JSON.parse` reads as the text "null"; an exception of `JSON.parse` is
not caught. -/
def initialStudents (stored : Option JSString) : Except JSException JSON :=
  match JSON_parse (match stored with
      | none => js "null"
      | some text => text) with
  | .error err => .error err
  | .ok v => .ok (if v.truthy then v else .array [])

/-- The object a record is, as `JSON.parse` builds it. -/
def studentValue (s : Student) : JSON :=
  .object ([(js "id", .string s.id), (js "name", .string s.name),
      (js "rollno", .string s.rollno), (js "std", .string s.std),
      (js "mobile", .string s.mobile), (js "createdAt", .string s.createdAt)] ++
    (match s.updatedAt with
      | none => []
      | some u => [(js "updatedAt", .string u)]))

/-- The array of objects a roster is. -/
def rosterValue (students : List Student) : JSON :=
  .array (students.map studentValue)

/-! ## Basic facts about the string and list helpers -/

theorem includes_iff (s t : JSString) : includes s t = true ↔ t <:+: s := by
  unfold includes
  rw [List.any_eq_true]
  constructor
  · rintro ⟨u, hu, hp⟩
    rw [List.mem_tails] at hu
    rw [List.isPrefixOf_iff_prefix] at hp
    exact List.IsInfix.trans hp.isInfix hu.isInfix
  · intro h
    obtain ⟨a, b, hab⟩ := h
    refine ⟨t ++ b, ?_, ?_⟩
    · rw [List.mem_tails]
      exact ⟨a, by rw [← hab, List.append_assoc]⟩
    · rw [List.isPrefixOf_iff_prefix]
      exact List.prefix_append t b

theorem mobilePattern_iff (s : JSString) :
    mobilePattern s = true ↔ s.length = 10 ∧ ∀ c ∈ s, 48 ≤ c ∧ c ≤ 57 := by
  simp [mobilePattern, List.all_eq_true]

theorem truthy_iff (s : JSString) : truthy s = true ↔ s ≠ [] := by
  cases s <;> simp [truthy]

/-! ## C3: validation -/

/-- C3: `validateStudentData` returns true exactly when the name has at least
two code units, rollno and std are non-empty and mobile is ten decimal digits
and nothing else; with mobile "12345" it returns false whatever the other
fields are. -/
theorem validateStudentData_iff (w : State) (data : StudentData) :
    ((validateStudentData w data).1 = true ↔
      2 ≤ data.name.length ∧ data.rollno ≠ [] ∧ data.std ≠ [] ∧
        data.mobile.length = 10 ∧ ∀ c ∈ data.mobile, 48 ≤ c ∧ c ≤ 57) ∧
    (∀ name rollno std : JSString,
      (validateStudentData w ⟨name, rollno, std, js "12345"⟩).1 = false) := by
  constructor
  · unfold validateStudentData
    by_cases h1 : (!truthy data.name || decide (data.name.length < 2)) = true
    · rw [if_pos h1]
      simp only [Bool.or_eq_true, Bool.not_eq_true', decide_eq_true_eq] at h1
      constructor
      · intro h; simp at h
      · rintro ⟨h, -⟩
        rcases h1 with h1 | h1
        · have : data.name = [] := by
            by_contra hne
            have := (truthy_iff data.name).2 hne
            simp [h1] at this
          rw [this] at h; simp at h
        · omega
    · rw [if_neg h1]
      simp only [Bool.or_eq_true, Bool.not_eq_true', decide_eq_true_eq, not_or, not_lt,
        Bool.not_eq_false] at h1
      by_cases h2 : (!truthy data.rollno) = true
      · rw [if_pos h2]
        simp only [Bool.not_eq_true'] at h2
        constructor
        · intro h; simp at h
        · rintro ⟨-, h, -⟩
          have := (truthy_iff data.rollno).2 h
          simp [h2] at this
      · rw [if_neg h2]
        simp only [Bool.not_eq_true', Bool.not_eq_false] at h2
        by_cases h3 : (!truthy data.std) = true
        · rw [if_pos h3]
          simp only [Bool.not_eq_true'] at h3
          constructor
          · intro h; simp at h
          · rintro ⟨-, -, h, -⟩
            have := (truthy_iff data.std).2 h
            simp [h3] at this
        · rw [if_neg h3]
          simp only [Bool.not_eq_true', Bool.not_eq_false] at h3
          by_cases h4 : (!truthy data.mobile || !mobilePattern data.mobile) = true
          · rw [if_pos h4]
            simp only [Bool.or_eq_true, Bool.not_eq_true'] at h4
            constructor
            · intro h; simp at h
            · rintro ⟨-, -, -, h⟩
              have hm := (mobilePattern_iff data.mobile).2 h
              rcases h4 with h4 | h4
              · have hne : data.mobile ≠ [] := by
                  intro he; rw [he] at h; simp at h
                have := (truthy_iff data.mobile).2 hne
                simp [h4] at this
              · simp [h4] at hm
          · rw [if_neg h4]
            simp only [Bool.or_eq_true, Bool.not_eq_true', not_or, Bool.not_eq_false] at h4
            refine ⟨fun _ => ⟨h1.2, (truthy_iff _).1 h2, (truthy_iff _).1 h3,
              (mobilePattern_iff _).1 h4.2⟩, fun _ => rfl⟩
  · intro name rollno std
    unfold validateStudentData
    have hm : mobilePattern (js "12345") = false := by decide
    have ht : truthy (js "12345") = true := by decide
    simp only [hm, ht]
    split_ifs with h1 h2 h3 h4
    · rfl
    · rfl
    · rfl
    · rfl
    · exact absurd rfl h4

/-! ## Facts about `findIndex` and `updateStudent` -/

theorem findIndex_split {p : Student → Bool} :
    ∀ {l : List Student} {i : Nat}, findIndex p l = some i →
      ∃ l1 cur l2, l = l1 ++ cur :: l2 ∧ i = l1.length ∧ p cur = true ∧
        ∀ s ∈ l1, p s = false := by
  intro l
  induction l with
  | nil => intro i h; simp [findIndex] at h
  | cons a rest ih =>
    intro i h
    unfold findIndex at h
    by_cases ha : p a = true
    · rw [if_pos ha] at h
      refine ⟨[], a, rest, rfl, ?_, ha, by simp⟩
      simpa using (Option.some.inj h).symm
    · rw [if_neg ha] at h
      cases hr : findIndex p rest with
      | none => rw [hr] at h; simp at h
      | some j =>
        rw [hr] at h
        obtain ⟨l1, cur, l2, hl, hj, hc, hall⟩ := ih hr
        refine ⟨a :: l1, cur, l2, by rw [hl]; rfl, ?_, hc, ?_⟩
        · simp only [Option.map_some', Option.some.injEq] at h
          simp only [List.length_cons]
          omega
        · intro s hs
          rcases List.mem_cons.1 hs with rfl | hs
          · simpa using ha
          · exact hall s hs

theorem findIndex_isSome_of_mem {p : Student → Bool} :
    ∀ {l : List Student}, (∃ s ∈ l, p s = true) → ∃ i, findIndex p l = some i := by
  intro l
  induction l with
  | nil => rintro ⟨s, hs, -⟩; simp at hs
  | cons a rest ih =>
    rintro ⟨s, hs, hp⟩
    unfold findIndex
    by_cases ha : p a = true
    · exact ⟨0, by rw [if_pos ha]⟩
    · rw [if_neg ha]
      rcases List.mem_cons.1 hs with rfl | hs
      · exact absurd hp ha
      · obtain ⟨i, hi⟩ := ih ⟨s, hs, hp⟩
        exact ⟨i + 1, by rw [hi]; rfl⟩

theorem findIndex_none_iff {p : Student → Bool} :
    ∀ {l : List Student}, findIndex p l = none ↔ ∀ s ∈ l, p s = false := by
  intro l
  constructor
  · intro h s hs
    by_contra hp
    obtain ⟨i, hi⟩ := findIndex_isSome_of_mem ⟨s, hs, by simpa using hp⟩
    rw [h] at hi
    exact Option.noConfusion hi
  · intro h
    cases hf : findIndex p l with
    | none => rfl
    | some i =>
      obtain ⟨l1, cur, l2, hl, -, hc, -⟩ := findIndex_split hf
      have := h cur (by rw [hl]; simp)
      rw [this] at hc
      exact Bool.noConfusion hc

theorem updateStudent_split (w : State) (id : JSString) (data : StudentData) (iso : JSString)
    (l1 l2 : List Student) (cur : Student) (hl : w.students = l1 ++ cur :: l2)
    (hc : cur.id = id) (hl1 : ∀ s ∈ l1, s.id ≠ id) :
    updateStudent w id data iso =
      if (cur.rollno != data.rollno &&
          w.students.any (fun s => s.rollno == data.rollno && s.id != id)) = true then
        alert w "Roll number already exists!"
      else
        alert (saveToLocalStorage
          { w with students := l1 ++ updatedRecord cur data iso :: l2 })
          "Student updated successfully!" := by
  have hidx : findIndex (fun s => s.id == id) w.students = some l1.length := by
    rw [hl]
    clear hl
    induction l1 with
    | nil => simp [findIndex, hc]
    | cons a rest ih =>
      have ha : a.id ≠ id := hl1 a (by simp)
      have := ih (fun s hs => hl1 s (by simp [hs]))
      show findIndex (fun s => s.id == id) (a :: (rest ++ cur :: l2)) = _
      simp only [findIndex, beq_iff_eq, ha, if_false, this]
      rfl
  have hget : w.students[l1.length]? = some cur := by
    rw [hl, List.getElem?_append_right (le_refl _)]; simp
  have hset : w.students.set l1.length (updatedRecord cur data iso) =
      l1 ++ updatedRecord cur data iso :: l2 := by
    rw [hl]; simp
  unfold updateStudent
  rw [hidx]
  simp only [hget]
  split_ifs with h
  · rfl
  · show alert (saveToLocalStorage
      { w with students := w.students.set l1.length (updatedRecord cur data iso) }) _ = _
    rw [hset]

/-! ## C5: what an update changes -/

/-- C5: for an id present in the roster, `updateStudent` works on the first
record with that id; when the data passes the duplicate check, the roster keeps
its length, the record at that position keeps id and createdAt, takes name,
rollno, std and mobile from the data and updatedAt from the clock, and every
other position is unchanged. -/
theorem updateStudent_frame (w : State) (id : JSString) (data : StudentData) (iso : JSString)
    (hid : ∃ s ∈ w.students, s.id = id) :
    ∃ index cur, findIndex (fun s => s.id == id) w.students = some index ∧
      w.students[index]? = some cur ∧ cur.id = id ∧
      (¬ (cur.rollno ≠ data.rollno ∧
            ∃ s ∈ w.students, s.rollno = data.rollno ∧ s.id ≠ id) →
        (updateStudent w id data iso).students.length = w.students.length ∧
        (updateStudent w id data iso).students[index]? =
          some { id := cur.id, name := data.name, rollno := data.rollno, std := data.std,
                 mobile := data.mobile, createdAt := cur.createdAt, updatedAt := some iso } ∧
        ∀ j, j ≠ index →
          (updateStudent w id data iso).students[j]? = w.students[j]?) := by
  obtain ⟨s, hs, hsid⟩ := hid
  obtain ⟨index, hidx⟩ :=
    findIndex_isSome_of_mem (p := fun s => s.id == id) ⟨s, hs, by simpa using hsid⟩
  obtain ⟨l1, cur, l2, hl, hi, hc, hl1⟩ := findIndex_split hidx
  have hc2 : cur.id = id := by simpa using hc
  have hl1b : ∀ s ∈ l1, s.id ≠ id := fun s hs => by simpa using hl1 s hs
  refine ⟨index, cur, hidx, ?_, hc2, ?_⟩
  · rw [hl, hi, List.getElem?_append_right (le_refl _)]; simp
  · intro hdup
    have hcond : ¬ ((cur.rollno != data.rollno &&
        w.students.any (fun s => s.rollno == data.rollno && s.id != id)) = true) := by
      intro h
      apply hdup
      simp only [Bool.and_eq_true, bne_iff_ne, ne_eq, List.any_eq_true, beq_iff_eq] at h
      exact h
    rw [updateStudent_split w id data iso l1 l2 cur hl hc2 hl1b, if_neg hcond]
    simp only [alert, saveToLocalStorage]
    refine ⟨?_, ?_, ?_⟩
    · rw [hl]; simp
    · rw [hi, List.getElem?_append_right (le_refl _)]; simp [updatedRecord]
    · intro j hj
      rw [hl]
      rcases Nat.lt_or_gt_of_ne hj with h | h
      · rw [List.getElem?_append_left (by omega), List.getElem?_append_left (by omega)]
      · rw [List.getElem?_append_right (by omega), List.getElem?_append_right (by omega)]
        have : j - l1.length = (j - l1.length - 1) + 1 := by omega
        rw [this]
        simp

/-- Witness for C5 on a roster of two records. -/
theorem updateStudent_frame_witness :
    (∃ s ∈ [(⟨js "7", js "Asha", js "101", js "10", js "9876543210", js "T0", none⟩ : Student),
            ⟨js "9", js "Ravi", js "102", js "10", js "9876543211", js "T1", none⟩],
        s.id = js "9") ∧
    (updateStudent
        { State.empty with students :=
            [⟨js "7", js "Asha", js "101", js "10", js "9876543210", js "T0", none⟩,
             ⟨js "9", js "Ravi", js "102", js "10", js "9876543211", js "T1", none⟩] }
        (js "9") ⟨js "Ravi K", js "103", js "11", js "9999999999"⟩ (js "T2")).students =
      [⟨js "7", js "Asha", js "101", js "10", js "9876543210", js "T0", none⟩,
       ⟨js "9", js "Ravi K", js "103", js "11", js "9999999999", js "T1", some (js "T2")⟩] ∧
    ∃ (index : Nat) (cur : Student), findIndex (fun s => s.id == js "9")
        [(⟨js "7", js "Asha", js "101", js "10", js "9876543210", js "T0", none⟩ : Student),
         ⟨js "9", js "Ravi", js "102", js "10", js "9876543211", js "T1", none⟩] = some index ∧
      cur.id = js "9" :=
  ⟨by decide, by decide,
    (updateStudent_frame
      { State.empty with students :=
          [⟨js "7", js "Asha", js "101", js "10", js "9876543210", js "T0", none⟩,
           ⟨js "9", js "Ravi", js "102", js "10", js "9876543211", js "T1", none⟩] }
      (js "9") ⟨js "Ravi K", js "103", js "11", js "9999999999"⟩ (js "T2")
      (by decide)).elim
      fun index h => h.elim fun cur hc => ⟨index, cur, hc.1, hc.2.2.1⟩⟩

/-! ## C8: a rejected submission changes nothing -/

theorem validateStudentData_state (w : State) (data : StudentData) :
    (validateStudentData w data).2.students = w.students ∧
    (validateStudentData w data).2.writes = w.writes ∧
    (validateStudentData w data).2.storage = w.storage ∧
    (validateStudentData w data).2.editingId = w.editingId := by
  unfold validateStudentData
  split_ifs <;> simp [alert]

theorem find_of_split {id : JSString} {l l1 l2 : List Student} {cur : Student}
    (hl : l = l1 ++ cur :: l2) (hc : cur.id = id) (hl1 : ∀ s ∈ l1, s.id ≠ id) :
    l.find? (fun s => s.id == id) = some cur := by
  rw [hl]
  clear hl
  induction l1 with
  | nil => simp [hc]
  | cons a rest ih =>
    have ha : a.id ≠ id := hl1 a (by simp)
    have := ih (fun s hs => hl1 s (by simp [hs]))
    have hb : (a.id == id) = false := by simpa using ha
    show List.find? (fun s => s.id == id) (a :: (rest ++ cur :: l2)) = some cur
    rw [List.find?_cons, hb]
    exact this

/-- C8: when `handleFormSubmit` rejects the input (a field fails validation;
or no record is being edited and the rollno is already in the roster; or the
record being edited is not in the roster; or the edit changes the rollno of the
record found to one held by a record with another id), the roster is what it
was and `saveToLocalStorage` has not been called: neither the count of writes
nor the stored text changes. -/
theorem handleFormSubmit_rejected_unchanged (w : State) (form : FormInput) (now : Nat)
    (iso : JSString)
    (hrej :
      (validateStudentData w ⟨trim form.name, trim form.rollno, trim form.std,
          trim form.mobile⟩).1 = false ∨
      ((w.editingId = none ∨ w.editingId = some []) ∧
          ∃ s ∈ w.students, s.rollno = trim form.rollno) ∨
      (∃ id, w.editingId = some id ∧ id ≠ [] ∧
          ((∀ s ∈ w.students, s.id ≠ id) ∨
            ∃ cur, w.students.find? (fun s => s.id == id) = some cur ∧
              cur.rollno ≠ trim form.rollno ∧
              ∃ s ∈ w.students, s.rollno = trim form.rollno ∧ s.id ≠ id))) :
    (handleFormSubmit w form now iso).students = w.students ∧
    (handleFormSubmit w form now iso).writes = w.writes ∧
    (handleFormSubmit w form now iso).storage = w.storage := by
  unfold handleFormSubmit
  simp only
  by_cases hv : (validateStudentData w ⟨trim form.name, trim form.rollno, trim form.std,
      trim form.mobile⟩).1 = true
  · rw [hv]
    simp only [Bool.not_true, Bool.false_eq_true, if_false]
    rcases hrej with h | ⟨he, s, hs, hr⟩ | ⟨id, he, hne, h⟩
    · rw [hv] at h; exact Bool.noConfusion h
    · have hf : w.editingId.filter truthy = none := by
        rcases he with he | he <;> rw [he] <;> rfl
      rw [hf]
      have hany : w.students.any (fun s => s.rollno == trim form.rollno) = true := by
        rw [List.any_eq_true]
        exact ⟨s, hs, by simpa using hr⟩
      simp only [hany, if_true, alert, and_self]
    · have hf : w.editingId.filter truthy = some id := by
        rw [he]
        have := (truthy_iff id).2 hne
        simp [Option.filter, this]
      rw [hf]
      simp only [displayStudents, resetForm]
      rcases h with h | ⟨cur, hfind, hneq, s, hs, hr, hsid⟩
      · have hnone : findIndex (fun s => s.id == id) w.students = none :=
          findIndex_none_iff.2 (fun s hs => by simpa using h s hs)
        unfold updateStudent
        rw [hnone]
        exact ⟨rfl, rfl, rfl⟩
      · obtain ⟨index, hidx⟩ := findIndex_isSome_of_mem (p := fun s => s.id == id)
          (l := w.students) (by
            have := List.find?_some hfind
            exact ⟨cur, List.mem_of_find?_eq_some hfind, this⟩)
        obtain ⟨l1, c, l2, hl, -, hc, hl1⟩ := findIndex_split hidx
        have hc2 : c.id = id := by simpa using hc
        have hl1b : ∀ s ∈ l1, s.id ≠ id := fun s hs => by simpa using hl1 s hs
        have hcc : c = cur := by
          have := find_of_split hl hc2 hl1b
          rw [hfind] at this
          exact (Option.some.inj this).symm
        subst hcc
        have hcond : (c.rollno != trim form.rollno &&
            w.students.any (fun s => s.rollno == trim form.rollno && s.id != id)) = true := by
          simp only [Bool.and_eq_true, bne_iff_ne, ne_eq, List.any_eq_true, beq_iff_eq]
          exact ⟨hneq, s, hs, hr, hsid⟩
        rw [updateStudent_split w id _ iso l1 l2 c hl hc2 hl1b, if_pos hcond]
        exact ⟨rfl, rfl, rfl⟩
  · have hv2 : (validateStudentData w ⟨trim form.name, trim form.rollno, trim form.std,
        trim form.mobile⟩).1 = false := by simpa using hv
    rw [hv2]
    simp only [Bool.not_false, if_true]
    have := validateStudentData_state w ⟨trim form.name, trim form.rollno, trim form.std,
        trim form.mobile⟩
    exact ⟨this.1, this.2.1, this.2.2.1⟩

/-- Witness for C8: the mobile "12345" of the specification's scenario. -/
theorem handleFormSubmit_rejected_unchanged_witness :
    (handleFormSubmit State.empty ⟨js "Asha Rao", js "101", js "10", js "12345"⟩ 5
        (js "T")).students = State.empty.students ∧
    (handleFormSubmit State.empty ⟨js "Asha Rao", js "101", js "10", js "12345"⟩ 5
        (js "T")).writes = State.empty.writes ∧
    (handleFormSubmit State.empty ⟨js "Asha Rao", js "101", js "10", js "12345"⟩ 5
        (js "T")).storage = State.empty.storage :=
  handleFormSubmit_rejected_unchanged State.empty
    ⟨js "Asha Rao", js "101", js "10", js "12345"⟩ 5 (js "T") (Or.inl (by decide))

/-! ## Ids printed from the clock -/

theorem decimalDigits_value : ∀ (fuel n : Nat), n < fuel →
    (decimalDigits fuel n).foldl (fun acc d => acc * 10 + (d - 48)) 0 = n := by
  intro fuel
  induction fuel with
  | zero => intro n h; omega
  | succ f ih =>
    intro n h
    unfold decimalDigits
    by_cases h10 : n < 10
    · rw [if_pos h10]; simp
    · rw [if_neg h10, List.foldl_append, ih (n / 10) (by omega)]
      simp only [List.foldl_cons, List.foldl_nil]
      omega

theorem numberToString_injective : Function.Injective numberToString := by
  intro a b h
  have ha := decimalDigits_value (a + 1) a (by omega)
  have hb := decimalDigits_value (b + 1) b (by omega)
  unfold numberToString at h
  rw [h] at ha
  omega

/-! ## What a submission does to the roster -/

/-- The record `createStudent` appends. -/
theorem createStudent_students (w : State) (data : StudentData) (now : Nat) (iso : JSString) :
    (createStudent w data now iso).students =
      w.students ++ [⟨numberToString now, data.name, data.rollno, data.std, data.mobile,
        iso, none⟩] := rfl

theorem handleFormSubmit_students (w : State) (form : FormInput) (now : Nat) (iso : JSString) :
    (handleFormSubmit w form now iso).students = w.students ∨
    ((validateStudentData w ⟨trim form.name, trim form.rollno, trim form.std,
        trim form.mobile⟩).1 = true ∧
      w.editingId.filter truthy = none ∧
      (∀ s ∈ w.students, s.rollno ≠ trim form.rollno) ∧
      (handleFormSubmit w form now iso).students =
        w.students ++ [⟨numberToString now, trim form.name, trim form.rollno, trim form.std,
          trim form.mobile, iso, none⟩]) ∨
    (∃ id l1 cur l2, w.students = l1 ++ cur :: l2 ∧ cur.id = id ∧ (∀ s ∈ l1, s.id ≠ id) ∧
      (cur.rollno = trim form.rollno ∨
        ∀ s ∈ w.students, s.rollno = trim form.rollno → s.id = id) ∧
      (handleFormSubmit w form now iso).students =
        l1 ++ updatedRecord cur ⟨trim form.name, trim form.rollno, trim form.std,
          trim form.mobile⟩ iso :: l2) := by
  unfold handleFormSubmit
  simp only
  by_cases hv : (validateStudentData w ⟨trim form.name, trim form.rollno, trim form.std,
      trim form.mobile⟩).1 = true
  · rw [hv]
    simp only [Bool.not_true, Bool.false_eq_true, if_false]
    cases he : w.editingId.filter truthy with
    | none =>
      simp only
      by_cases hany : w.students.any (fun s => s.rollno == trim form.rollno) = true
      · rw [if_pos hany]; exact Or.inl rfl
      · rw [if_neg hany]
        refine Or.inr (Or.inl ⟨trivial, trivial, ?_, rfl⟩)
        intro s hs hr
        apply hany
        rw [List.any_eq_true]
        exact ⟨s, hs, by simpa using hr⟩
    | some id =>
      simp only [displayStudents, resetForm]
      cases hidx : findIndex (fun s => s.id == id) w.students with
      | none =>
        left
        unfold updateStudent
        rw [hidx]
      | some index =>
        obtain ⟨l1, c, l2, hl, -, hc, hl1⟩ := findIndex_split hidx
        have hc2 : c.id = id := by simpa using hc
        have hl1b : ∀ s ∈ l1, s.id ≠ id := fun s hs => by simpa using hl1 s hs
        rw [updateStudent_split w id _ iso l1 l2 c hl hc2 hl1b]
        split_ifs with hcond
        · exact Or.inl rfl
        · refine Or.inr (Or.inr ⟨id, l1, c, l2, hl, hc2, hl1b, ?_, rfl⟩)
          by_cases hr : c.rollno = trim form.rollno
          · exact Or.inl hr
          · right
            intro s hs hsr
            by_contra hsid
            apply hcond
            simp only [Bool.and_eq_true, bne_iff_ne, ne_eq, List.any_eq_true, beq_iff_eq]
            exact ⟨hr, s, hs, hsr, hsid⟩
  · have hv2 : (validateStudentData w ⟨trim form.name, trim form.rollno, trim form.std,
        trim form.mobile⟩).1 = false := by simpa using hv
    rw [hv2]
    simp only [Bool.not_false, if_true]
    exact Or.inl (validateStudentData_state w _).1

/-! ## The invariant of runs with distinct clock readings -/

theorem nodup_map_replace {β : Type} (f : Student → β) (l1 l2 : List Student)
    (cur upd : Student) (h : ((l1 ++ cur :: l2).map f).Nodup)
    (hnew : f upd = f cur ∨ ∀ s ∈ l1 ++ l2, f s ≠ f upd) :
    ((l1 ++ upd :: l2).map f).Nodup := by
  rcases hnew with hs | hn
  · have : (l1 ++ upd :: l2).map f = (l1 ++ cur :: l2).map f := by simp [hs]
    rw [this]; exact h
  · simp only [List.map_append, List.map_cons] at h ⊢
    rw [List.nodup_middle, List.nodup_cons] at h ⊢
    refine ⟨?_, h.2⟩
    intro hmem
    rw [← List.map_append, List.mem_map] at hmem
    obtain ⟨s, hs, hfs⟩ := hmem
    exact hn s hs hfs

theorem handleFormSubmit_invariant (w : State) (form : FormInput) (now : Nat) (iso : JSString)
    (used : List Nat)
    (hused : ∀ s ∈ w.students, ∃ n ∈ used, s.id = numberToString n)
    (hids : (w.students.map (fun s => s.id)).Nodup)
    (hrolls : (w.students.map (fun s => s.rollno)).Nodup)
    (hfresh : now ∉ used) :
    (∀ s ∈ (handleFormSubmit w form now iso).students,
        ∃ n ∈ used ++ [now], s.id = numberToString n) ∧
    ((handleFormSubmit w form now iso).students.map (fun s => s.id)).Nodup ∧
    ((handleFormSubmit w form now iso).students.map (fun s => s.rollno)).Nodup := by
  have hweak : ∀ s ∈ w.students, ∃ n ∈ used ++ [now], s.id = numberToString n := by
    intro s hs
    obtain ⟨n, hn, e⟩ := hused s hs
    exact ⟨n, List.mem_append_left _ hn, e⟩
  rcases handleFormSubmit_students w form now iso with h | ⟨-, -, hroll, h⟩ |
    ⟨id, l1, cur, l2, hl, hc, hl1, hdup, h⟩
  · rw [h]; exact ⟨hweak, hids, hrolls⟩
  · rw [h]
    refine ⟨?_, ?_, ?_⟩
    · intro s hs
      rcases List.mem_append.1 hs with hs | hs
      · exact hweak s hs
      · rw [List.mem_singleton] at hs
        exact ⟨now, by simp, by rw [hs]⟩
    · rw [List.map_append, List.nodup_append]
      refine ⟨hids, by simp, ?_⟩
      intro a ha hb
      simp only [List.map_cons, List.map_nil, List.mem_singleton] at hb
      rw [List.mem_map] at ha
      obtain ⟨s, hs, rfl⟩ := ha
      obtain ⟨n, hn, e⟩ := hused s hs
      rw [e] at hb
      have := numberToString_injective hb
      exact hfresh (this ▸ hn)
    · rw [List.map_append, List.nodup_append]
      refine ⟨hrolls, by simp, ?_⟩
      intro a ha hb
      simp only [List.map_cons, List.map_nil, List.mem_singleton] at hb
      rw [List.mem_map] at ha
      obtain ⟨s, hs, rfl⟩ := ha
      exact hroll s hs hb
  · rw [h]
    rw [hl] at hids hrolls hweak
    refine ⟨?_, ?_, ?_⟩
    · intro s hs
      rcases List.mem_append.1 hs with hs | hs
      · exact hweak s (List.mem_append_left _ hs)
      · rcases List.mem_cons.1 hs with rfl | hs
        · exact hweak cur (by simp)
        · exact hweak s (by simp [hs])
    · exact nodup_map_replace _ l1 l2 cur _ hids (Or.inl rfl)
    · refine nodup_map_replace _ l1 l2 cur _ hrolls ?_
      rcases hdup with hd | hd
      · exact Or.inl hd.symm
      · right
        intro s hs hsr
        have hsw : s ∈ w.students := by
          rw [hl]
          rcases List.mem_append.1 hs with h1 | h2
          · exact List.mem_append_left _ h1
          · exact List.mem_append_right _ (List.mem_cons_of_mem _ h2)
        have hsid : s.id = id := hd s hsw hsr
        rcases List.mem_append.1 hs with h1 | h2
        · exact hl1 s h1 hsid
        · simp only [List.map_append, List.map_cons] at hids
          rw [List.nodup_middle, List.nodup_cons] at hids
          apply hids.1
          rw [← List.map_append, List.mem_map]
          exact ⟨s, List.mem_append_right _ h2, by rw [hsid, hc]⟩

theorem deleteStudent_students (w : State) (id : JSString) :
    (deleteStudent w id true).students = w.students.filter (fun s => s.id != id) := rfl

theorem step_invariant (lower : JSString → JSString) (w : State) (a : Action)
    (used : List Nat)
    (hused : ∀ s ∈ w.students, ∃ n ∈ used, s.id = numberToString n)
    (hids : (w.students.map (fun s => s.id)).Nodup)
    (hrolls : (w.students.map (fun s => s.rollno)).Nodup)
    (hfresh : ∀ n ∈ clockReadings [a], n ∉ used) :
    (∀ s ∈ (step lower w a).students,
        ∃ n ∈ used ++ clockReadings [a], s.id = numberToString n) ∧
    ((step lower w a).students.map (fun s => s.id)).Nodup ∧
    ((step lower w a).students.map (fun s => s.rollno)).Nodup := by
  have hweak : ∀ (extra : List Nat), ∀ s ∈ w.students,
      ∃ n ∈ used ++ extra, s.id = numberToString n := by
    intro extra s hs
    obtain ⟨n, hn, e⟩ := hused s hs
    exact ⟨n, List.mem_append_left _ hn, e⟩
  cases a with
  | edit id =>
    have : (step lower w (.edit id)).students = w.students := by
      simp only [step, editStudent]; split <;> rfl
    rw [this]; exact ⟨hweak _, hids, hrolls⟩
  | cancel => exact ⟨hweak _, hids, hrolls⟩
  | submit form now iso =>
    exact handleFormSubmit_invariant w form now iso used hused hids hrolls
      (hfresh now (by simp [clockReadings]))
  | delete id confirmed =>
    cases confirmed with
    | false => exact ⟨hweak _, hids, hrolls⟩
    | true =>
      show (∀ s ∈ (deleteStudent w id true).students, _) ∧
        ((deleteStudent w id true).students.map _).Nodup ∧
        ((deleteStudent w id true).students.map _).Nodup
      rw [deleteStudent_students]
      refine ⟨fun s hs => hweak _ s (List.mem_of_mem_filter hs), ?_, ?_⟩
      · exact hids.sublist ((List.filter_sublist _).map _)
      · exact hrolls.sublist ((List.filter_sublist _).map _)
  | search q =>
    have : (step lower w (.search q)).students = w.students := by
      simp only [step, filterStudents]; split <;> rfl
    rw [this]; exact ⟨hweak _, hids, hrolls⟩

theorem clockReadings_cons (a : Action) (rest : List Action) :
    clockReadings (a :: rest) = clockReadings [a] ++ clockReadings rest := by
  cases a <;> simp [clockReadings]

theorem run_invariant (lower : JSString → JSString) :
    ∀ (acts : List Action) (w : State) (used : List Nat),
      (∀ s ∈ w.students, ∃ n ∈ used, s.id = numberToString n) →
      (w.students.map (fun s => s.id)).Nodup →
      (w.students.map (fun s => s.rollno)).Nodup →
      (used ++ clockReadings acts).Nodup →
      (∀ s ∈ (run lower w acts).students,
          ∃ n ∈ used ++ clockReadings acts, s.id = numberToString n) ∧
      ((run lower w acts).students.map (fun s => s.id)).Nodup ∧
      ((run lower w acts).students.map (fun s => s.rollno)).Nodup := by
  intro acts
  induction acts with
  | nil =>
    intro w used hused hids hrolls _
    refine ⟨?_, hids, hrolls⟩
    intro s hs
    obtain ⟨n, hn, e⟩ := hused s hs
    exact ⟨n, by simpa [clockReadings] using hn, e⟩
  | cons a rest ih =>
    intro w used hused hids hrolls hnd
    rw [clockReadings_cons, ← List.append_assoc] at hnd
    have hfresh : ∀ n ∈ clockReadings [a], n ∉ used := by
      intro n hn hu
      have := (List.nodup_append.1 (List.nodup_append.1 hnd).1).2.2
      exact this hu hn
    obtain ⟨h1, h2, h3⟩ := step_invariant lower w a used hused hids hrolls hfresh
    have := ih (step lower w a) (used ++ clockReadings [a]) h1 h2 h3 hnd
    rw [clockReadings_cons, ← List.append_assoc]
    exact this

theorem clockReadings_append (l1 l2 : List Action) :
    clockReadings (l1 ++ l2) = clockReadings l1 ++ clockReadings l2 := by
  induction l1 with
  | nil => rfl
  | cons a rest ih =>
    rw [List.cons_append, clockReadings_cons, clockReadings_cons a rest, ih,
      List.append_assoc]

theorem clockReadings_take_nodup (acts : List Action) (k : Nat)
    (h : (clockReadings acts).Nodup) : (clockReadings (acts.take k)).Nodup := by
  rw [← List.take_append_drop k acts, clockReadings_append] at h
  exact (List.nodup_append.1 h).1

/-! ## C1: uniqueness of rollno -/

/-- C1 as stated fails: two creates that read the same clock value get the
same id; editing that id and submitting the rollno of the second record passes
the duplicate check of `updateStudent`, which skips records with the edited id,
and the roster ends with two records of rollno "102". -/
theorem rollno_duplicated_when_clock_repeats :
    (run asciiToLowerCase State.empty
      [.submit ⟨js "Asha Rao", js "101", js "10", js "9876543210"⟩ 5 (js "T1"),
       .submit ⟨js "Ravi Kumar", js "102", js "10", js "9876543211"⟩ 5 (js "T2"),
       .edit (js "5"),
       .submit ⟨js "Asha Rao", js "102", js "10", js "9876543210"⟩ 6 (js "T3")]).students
      = [⟨js "5", js "Asha Rao", js "102", js "10", js "9876543210", js "T1", some (js "T3")⟩,
         ⟨js "5", js "Ravi Kumar", js "102", js "10", js "9876543211", js "T2", none⟩] := by
  decide

/-- C1 (amended): starting from the empty roster, after every step of every
sequence of handler calls whose form submissions read pairwise distinct clock
values, no two records of the roster have the same rollno. -/
theorem rollno_unique_of_distinct_clock (lower : JSString → JSString) (acts : List Action)
    (h : (clockReadings acts).Nodup) (k : Nat) :
    ((run lower State.empty (acts.take k)).students.map (fun s => s.rollno)).Nodup :=
  (run_invariant lower (acts.take k) State.empty []
    (fun s hs => absurd hs (List.not_mem_nil s)) List.nodup_nil List.nodup_nil
    (by simpa using clockReadings_take_nodup acts k h)).2.2

/-- Witness for C1 (amended): create, create, edit, update with distinct
clock readings. -/
theorem rollno_unique_of_distinct_clock_witness :
    (clockReadings
      [.submit ⟨js "Asha Rao", js "101", js "10", js "9876543210"⟩ 5 (js "T1"),
       .submit ⟨js "Ravi Kumar", js "102", js "10", js "9876543211"⟩ 6 (js "T2"),
       .edit (js "5"),
       .submit ⟨js "Asha Rao", js "102", js "10", js "9876543210"⟩ 7 (js "T3")]).Nodup ∧
    ((run asciiToLowerCase State.empty
      (List.take 4
        [.submit ⟨js "Asha Rao", js "101", js "10", js "9876543210"⟩ 5 (js "T1"),
         .submit ⟨js "Ravi Kumar", js "102", js "10", js "9876543211"⟩ 6 (js "T2"),
         .edit (js "5"),
         .submit ⟨js "Asha Rao", js "102", js "10", js "9876543210"⟩ 7 (js "T3")])).students.map
        (fun s => s.rollno)).Nodup :=
  ⟨by decide, rollno_unique_of_distinct_clock asciiToLowerCase _ (by decide) 4⟩

/-! ## C2: uniqueness of id -/

/-- C2 as stated fails: two creates that read the same clock value 5 both
get the id "5". -/
theorem id_duplicated_when_clock_repeats :
    (run asciiToLowerCase State.empty
      [.submit ⟨js "Asha Rao", js "101", js "10", js "9876543210"⟩ 5 (js "T1"),
       .submit ⟨js "Ravi Kumar", js "102", js "10", js "9876543211"⟩ 5 (js "T2")]).students.map
      (fun s => s.id) = [js "5", js "5"] := by
  decide

/-- C2 (amended): starting from the empty roster, after every sequence of
create, update and delete operations whose form submissions read pairwise
distinct clock values, no two records have the same id; and a further
`createStudent` whose clock reading differs from all of those appends a record
whose id differs from the id of every record already in the roster. -/
theorem id_unique_of_distinct_clock (lower : JSString → JSString) (acts : List Action)
    (h : (clockReadings acts).Nodup) :
    ((run lower State.empty acts).students.map (fun s => s.id)).Nodup ∧
    ∀ (data : StudentData) (now : Nat) (iso : JSString), now ∉ clockReadings acts →
      ∃ rec, (createStudent (run lower State.empty acts) data now iso).students =
          (run lower State.empty acts).students ++ [rec] ∧
        ∀ s ∈ (run lower State.empty acts).students, s.id ≠ rec.id := by
  have hinv := run_invariant lower acts State.empty []
    (fun s hs => absurd hs (List.not_mem_nil s)) List.nodup_nil List.nodup_nil
    (by simpa using h)
  refine ⟨hinv.2.1, ?_⟩
  intro data now iso hnow
  refine ⟨_, createStudent_students _ data now iso, ?_⟩
  intro s hs heq
  obtain ⟨n, hn, e⟩ := hinv.1 s hs
  rw [e] at heq
  have := numberToString_injective heq
  simp only [List.nil_append] at hn
  exact hnow (this ▸ hn)

/-- Witness for C2 (amended). -/
theorem id_unique_of_distinct_clock_witness :
    (clockReadings
      [.submit ⟨js "Asha Rao", js "101", js "10", js "9876543210"⟩ 5 (js "T1"),
       .submit ⟨js "Ravi Kumar", js "102", js "10", js "9876543211"⟩ 6 (js "T2"),
       .delete (js "5") true]).Nodup ∧
    ((run asciiToLowerCase State.empty
      [.submit ⟨js "Asha Rao", js "101", js "10", js "9876543210"⟩ 5 (js "T1"),
       .submit ⟨js "Ravi Kumar", js "102", js "10", js "9876543211"⟩ 6 (js "T2"),
       .delete (js "5") true]).students.map (fun s => s.id)).Nodup :=
  ⟨by decide, (id_unique_of_distinct_clock asciiToLowerCase _ (by decide)).1⟩

/-! ## C4: create, then look up -/

/-- C4 as stated fails: after two creates that read the same clock value,
`students.find(s => s.id === id)` with the id of the record just created
returns the older record with that id, not the last element of the roster. -/
theorem find_after_create_returns_older_record :
    (handleFormSubmit
        (run asciiToLowerCase State.empty
          [.submit ⟨js "Asha Rao", js "101", js "10", js "9876543210"⟩ 5 (js "T1")])
        ⟨js "Ravi Kumar", js "102", js "10", js "9876543211"⟩ 5 (js "T2")).students.getLast?
      = some ⟨js "5", js "Ravi Kumar", js "102", js "10", js "9876543211", js "T2", none⟩ ∧
    (handleFormSubmit
        (run asciiToLowerCase State.empty
          [.submit ⟨js "Asha Rao", js "101", js "10", js "9876543210"⟩ 5 (js "T1")])
        ⟨js "Ravi Kumar", js "102", js "10", js "9876543211"⟩ 5 (js "T2")).students.find?
        (fun s => s.id == js "5")
      = some ⟨js "5", js "Asha Rao", js "101", js "10", js "9876543210", js "T1", none⟩ := by
  decide

/-- C4 (amended): for every roster, when no record is being edited, the
trimmed input is valid, its rollno is not in the roster and the id printed from
the clock reading is not the id of a record of the roster, `handleFormSubmit`
appends the new record as the last element, and the lookup
`students.find(s => s.id === id)` with the new id returns that record. -/
theorem create_then_find (w : State) (form : FormInput) (now : Nat) (iso : JSString)
    (hedit : w.editingId = none)
    (hvalid : (validateStudentData w ⟨trim form.name, trim form.rollno, trim form.std,
        trim form.mobile⟩).1 = true)
    (hroll : ∀ s ∈ w.students, s.rollno ≠ trim form.rollno)
    (hid : ∀ s ∈ w.students, s.id ≠ numberToString now) :
    (handleFormSubmit w form now iso).students =
      w.students ++ [⟨numberToString now, trim form.name, trim form.rollno, trim form.std,
        trim form.mobile, iso, none⟩] ∧
    (handleFormSubmit w form now iso).students.getLast? =
      some ⟨numberToString now, trim form.name, trim form.rollno, trim form.std,
        trim form.mobile, iso, none⟩ ∧
    (handleFormSubmit w form now iso).students.find? (fun s => s.id == numberToString now) =
      some ⟨numberToString now, trim form.name, trim form.rollno, trim form.std,
        trim form.mobile, iso, none⟩ := by
  have hstud : (handleFormSubmit w form now iso).students =
      w.students ++ [⟨numberToString now, trim form.name, trim form.rollno, trim form.std,
        trim form.mobile, iso, none⟩] := by
    unfold handleFormSubmit
    simp only
    rw [hvalid, hedit]
    have hany : w.students.any (fun s => s.rollno == trim form.rollno) = false := by
      rw [List.any_eq_false]
      intro s hs
      simpa using hroll s hs
    simp only [Bool.not_true, Bool.false_eq_true, if_false, Option.filter, hany]
    rfl
  rw [hstud]
  refine ⟨rfl, by simp, ?_⟩
  exact @find_of_split _ _ _ [] _ rfl rfl hid

/-- Witness for C4 (amended): a second create at a later clock reading. -/
theorem create_then_find_witness :
    (handleFormSubmit
        (run asciiToLowerCase State.empty
          [.submit ⟨js "Asha Rao", js "101", js "10", js "9876543210"⟩ 5 (js "T1")])
        ⟨js "Ravi Kumar", js "102", js "10", js "9876543211"⟩ 6 (js "T2")).students.find?
        (fun s => s.id == numberToString 6)
      = some ⟨numberToString 6, trim (js "Ravi Kumar"), trim (js "102"), trim (js "10"),
          trim (js "9876543211"), js "T2", none⟩ :=
  (create_then_find
    (run asciiToLowerCase State.empty
      [.submit ⟨js "Asha Rao", js "101", js "10", js "9876543210"⟩ 5 (js "T1")])
    ⟨js "Ravi Kumar", js "102", js "10", js "9876543211"⟩ 6 (js "T2")
    (by decide) (by decide) (by decide) (by decide)).2.2

/-! ## C6: delete -/

theorem filter_ne_length (id : JSString) :
    ∀ (l : List Student), (l.map (fun s => s.id)).Nodup → (∃ s ∈ l, s.id = id) →
      (l.filter (fun s => s.id != id)).length + 1 = l.length := by
  intro l
  induction l with
  | nil => rintro - ⟨s, hs, -⟩; simp at hs
  | cons a rest ih =>
    intro hnd hex
    rw [List.map_cons, List.nodup_cons] at hnd
    by_cases ha : a.id = id
    · have hrest : ∀ s ∈ rest, (s.id != id) = true := by
        intro s hs
        simp only [bne_iff_ne, ne_eq]
        intro hsid
        apply hnd.1
        rw [List.mem_map]
        exact ⟨s, hs, by rw [hsid, ha]⟩
      have hfa : (a.id != id) = false := by simp [ha]
      rw [List.filter_cons, hfa]
      simp only [Bool.false_eq_true, if_false, List.length_cons]
      rw [List.filter_eq_self.2 hrest]
    · have hfa : (a.id != id) = true := by simpa using ha
      rw [List.filter_cons, hfa]
      simp only [if_true, List.length_cons]
      obtain ⟨s, hs, hsid⟩ := hex
      rcases List.mem_cons.1 hs with rfl | hs
      · exact absurd hsid ha
      · have := ih hnd.2 ⟨s, hs, hsid⟩
        omega

/-- C6 as stated fails: after two creates that read the same clock value
the roster holds two records with id "5", and a confirmed `deleteStudent("5")`
removes both, so the length drops from 2 to 0. -/
theorem delete_removes_two_when_clock_repeats :
    (run asciiToLowerCase State.empty
      [.submit ⟨js "Asha Rao", js "101", js "10", js "9876543210"⟩ 5 (js "T1"),
       .submit ⟨js "Ravi Kumar", js "102", js "10", js "9876543211"⟩ 5 (js "T2")]).students.length
      = 2 ∧
    (deleteStudent
      (run asciiToLowerCase State.empty
        [.submit ⟨js "Asha Rao", js "101", js "10", js "9876543210"⟩ 5 (js "T1"),
         .submit ⟨js "Ravi Kumar", js "102", js "10", js "9876543211"⟩ 5 (js "T2")])
      (js "5") true).students.length = 0 := by
  decide

/-- C6 (amended): for every roster reached from the empty roster by handler
calls whose form submissions read pairwise distinct clock values, and every id
present in it, after a confirmed `deleteStudent(id)` no record has that id, the
lookup by id finds nothing, the length has decreased by exactly one, and the
roster is the list of the records with another id, in their original order. -/
theorem delete_removes_exactly_one (lower : JSString → JSString) (acts : List Action)
    (h : (clockReadings acts).Nodup) (id : JSString)
    (hid : ∃ s ∈ (run lower State.empty acts).students, s.id = id) :
    (∀ s ∈ (deleteStudent (run lower State.empty acts) id true).students, s.id ≠ id) ∧
    (deleteStudent (run lower State.empty acts) id true).students.find?
      (fun s => s.id == id) = none ∧
    (deleteStudent (run lower State.empty acts) id true).students.length + 1 =
      (run lower State.empty acts).students.length ∧
    (deleteStudent (run lower State.empty acts) id true).students =
      (run lower State.empty acts).students.filter (fun s => decide (s.id ≠ id)) := by
  have hinv := run_invariant lower acts State.empty []
    (fun s hs => absurd hs (List.not_mem_nil s)) List.nodup_nil List.nodup_nil
    (by simpa using h)
  rw [deleteStudent_students]
  have hne : ∀ s ∈ (run lower State.empty acts).students.filter (fun s => s.id != id),
      s.id ≠ id := by
    intro s hs
    have := (List.mem_filter.1 hs).2
    simpa using this
  refine ⟨hne, ?_, filter_ne_length id _ hinv.2.1 hid, ?_⟩
  · rw [List.find?_eq_none]
    intro s hs
    simpa using hne s hs
  · congr 1
    funext s
    by_cases hs : s.id = id <;> simp [hs]

/-- Witness for C6 (amended). -/
theorem delete_removes_exactly_one_witness :
    (clockReadings
      [.submit ⟨js "Asha Rao", js "101", js "10", js "9876543210"⟩ 5 (js "T1"),
       .submit ⟨js "Ravi Kumar", js "102", js "10", js "9876543211"⟩ 6 (js "T2")]).Nodup ∧
    (deleteStudent
      (run asciiToLowerCase State.empty
        [.submit ⟨js "Asha Rao", js "101", js "10", js "9876543210"⟩ 5 (js "T1"),
         .submit ⟨js "Ravi Kumar", js "102", js "10", js "9876543211"⟩ 6 (js "T2")])
      (js "5") true).students.length + 1 =
    (run asciiToLowerCase State.empty
      [.submit ⟨js "Asha Rao", js "101", js "10", js "9876543210"⟩ 5 (js "T1"),
       .submit ⟨js "Ravi Kumar", js "102", js "10", js "9876543211"⟩ 6 (js "T2")]).students.length :=
  ⟨by decide,
    (delete_removes_exactly_one asciiToLowerCase
      [.submit ⟨js "Asha Rao", js "101", js "10", js "9876543210"⟩ 5 (js "T1"),
       .submit ⟨js "Ravi Kumar", js "102", js "10", js "9876543211"⟩ 6 (js "T2")]
      (by decide) (js "5") (by decide)).2.2.1⟩

/-! ## C9: delete of an id that is not in the roster -/

/-- C9 as stated fails: on the empty roster no record has the id "404", yet a
confirmed `deleteStudent("404")` calls `saveToLocalStorage` once and shows the
success alert. -/
theorem delete_absent_reports_success :
    (∀ s ∈ State.empty.students, s.id ≠ js "404") ∧
    (deleteStudent State.empty (js "404") true).writes = 1 ∧
    (deleteStudent State.empty (js "404") true).storage = some (js "[]") ∧
    (deleteStudent State.empty (js "404") true).alerts = ["Student deleted successfully!"] := by
  decide

/-- C9 (amended): for every roster and every id that no record has,
`deleteStudent(id)` leaves the roster as it was; there is no not-found outcome:
when the user confirms it writes the unchanged roster to storage once and shows
the success alert, and when the user declines nothing happens.  A write and a
success report happen exactly when the user confirmed. -/
theorem deleteStudent_absent (w : State) (id : JSString) (confirmed : Bool)
    (h : ∀ s ∈ w.students, s.id ≠ id) :
    (deleteStudent w id confirmed).students = w.students ∧
    (confirmed = true →
      (deleteStudent w id confirmed).writes = w.writes + 1 ∧
      (deleteStudent w id confirmed).storage = some (JSON_stringify w.students) ∧
      (deleteStudent w id confirmed).alerts = w.alerts ++ ["Student deleted successfully!"]) ∧
    (confirmed = false → deleteStudent w id confirmed = w) := by
  have hfilter : w.students.filter (fun s => s.id != id) = w.students := by
    rw [List.filter_eq_self]
    intro s hs
    simpa using h s hs
  cases confirmed with
  | false => exact ⟨rfl, fun hc => Bool.noConfusion hc, fun _ => rfl⟩
  | true =>
    refine ⟨?_, fun _ => ⟨rfl, ?_, rfl⟩, fun hc => Bool.noConfusion hc⟩
    · rw [deleteStudent_students, hfilter]
    · show some (JSON_stringify (w.students.filter (fun s => s.id != id))) = _
      rw [hfilter]

/-- Witness for C9 (amended): a roster of one record and an id it does not
hold. -/
theorem deleteStudent_absent_witness :
    (deleteStudent
      (run asciiToLowerCase State.empty
        [.submit ⟨js "Asha Rao", js "101", js "10", js "9876543210"⟩ 5 (js "T1")])
      (js "404") true).students =
    (run asciiToLowerCase State.empty
      [.submit ⟨js "Asha Rao", js "101", js "10", js "9876543210"⟩ 5 (js "T1")]).students :=
  (deleteStudent_absent
    (run asciiToLowerCase State.empty
      [.submit ⟨js "Asha Rao", js "101", js "10", js "9876543210"⟩ 5 (js "T1")])
    (js "404") true (by decide)).1

/-! ## C7: search -/

/-- C7 as stated fails: the query is trimmed as well as lowercased.  With the
query "a " (a trailing blank) the record named "ab" is displayed, although the
lowercased query "a " occurs neither in its lowercased name, nor in its
lowercased rollno, nor in its mobile. -/
theorem filter_trims_query :
    (filterStudents asciiToLowerCase
      { State.empty with students :=
          [⟨js "5", js "ab", js "101", js "10", js "9876543210", js "T1", none⟩] }
      (js "a ")).displayed =
      [⟨js "5", js "ab", js "101", js "10", js "9876543210", js "T1", none⟩] ∧
    ¬ (asciiToLowerCase (js "a ") <:+: asciiToLowerCase (js "ab")) ∧
    ¬ (asciiToLowerCase (js "a ") <:+: asciiToLowerCase (js "101")) ∧
    ¬ (asciiToLowerCase (js "a ") <:+: js "9876543210") :=
  ⟨by decide,
   fun h => absurd ((includes_iff _ _).2 h) (by decide),
   fun h => absurd ((includes_iff _ _).2 h) (by decide),
   fun h => absurd ((includes_iff _ _).2 h) (by decide)⟩

/-- C7 (amended): for every roster and every query q, with t the lowercased
and then trimmed q, the sequence `filterStudents` displays is exactly the
sub-sequence of the roster, in roster order, of the records whose lowercased
name or lowercased rollno contains t as a substring or whose mobile contains
t; for the empty query it is the full roster, and the roster is not modified.
The host function `toLowerCase` is any function that maps the empty string to
the empty string. -/
theorem filterStudents_displayed (lower : JSString → JSString) (hlower : lower [] = [])
    (w : State) (q : JSString) :
    (filterStudents lower w q).displayed =
      w.students.filter (fun s => decide
        (trim (lower q) <:+: lower s.name ∨ trim (lower q) <:+: lower s.rollno ∨
          trim (lower q) <:+: s.mobile)) ∧
    (filterStudents lower w []).displayed = w.students ∧
    (filterStudents lower w q).students = w.students := by
  refine ⟨?_, ?_, ?_⟩
  · unfold filterStudents
    simp only
    by_cases ht : trim (lower q) = []
    · rw [ht]
      simp only [beq_self_eq_true, if_true, displayStudents]
      symm
      rw [List.filter_eq_self]
      intro s _
      simp
    · have hb : (trim (lower q) == []) = false := by simpa using ht
      rw [hb]
      simp only [Bool.false_eq_true, if_false, displayStudents]
      congr 1
      funext s
      rw [Bool.eq_iff_iff]
      simp only [Bool.or_eq_true, includes_iff, decide_eq_true_eq]
      tauto
  · unfold filterStudents
    simp only [hlower]
    rfl
  · unfold filterStudents
    simp only
    split <;> rfl

/-- Witness for C7 (amended), with the ASCII lower-casing. -/
theorem filterStudents_displayed_witness :
    asciiToLowerCase [] = [] ∧
    (filterStudents asciiToLowerCase
      { State.empty with students :=
          [⟨js "5", js "Asha Rao", js "101", js "10", js "9876543210", js "T1", none⟩] }
      []).displayed =
      [⟨js "5", js "Asha Rao", js "101", js "10", js "9876543210", js "T1", none⟩] :=
  ⟨rfl, (filterStudents_displayed asciiToLowerCase rfl
      { State.empty with students :=
          [⟨js "5", js "Asha Rao", js "101", js "10", js "9876543210", js "T1", none⟩] }
      (js "ASHA")).2.1⟩


/-! ## Parsing what `JSON.stringify` wrote -/

theorem hexValue_hexDigit : ∀ n, n < 16 → hexValue (hexDigit n) = some n := by
  decide

theorem parseStringBody_cons (c : Nat) (rest : JSString) :
    parseStringBody (c :: rest) =
    if c = 34 then .ok ([], rest)
    else if c = 92 then
      match rest with
      | [] => .error .syntaxError
      | e :: rest2 =>
        if e = 117 then
          match rest2 with
          | h1 :: h2 :: h3 :: h4 :: rest3 =>
            match hexValue h1, hexValue h2, hexValue h3, hexValue h4 with
            | some a, some b, some c2, some d =>
              prepend (a * 4096 + b * 256 + c2 * 16 + d) (parseStringBody rest3)
            | _, _, _, _ => .error .syntaxError
          | _ => .error .syntaxError
        else
          match simpleEscape e with
          | some u => prepend u (parseStringBody rest2)
          | none => .error .syntaxError
    else if c < 32 then .error .syntaxError
    else prepend c (parseStringBody rest) := by
  conv => lhs; rw [parseStringBody.eq_def]
  rfl

theorem parseStringBody_escape (e u : Nat) (he : e ≠ 117) (hu : simpleEscape e = some u) (tail : JSString) :
    parseStringBody (92 :: e :: tail) = prepend u (parseStringBody tail) := by
  rw [parseStringBody_cons]
  simp only [show ¬ (92 = 34) by decide, if_false, if_true, he, hu]

theorem parseStringBody_unicodeEscape (c : Nat) (hc : c < 65536) (tail : JSString) :
    parseStringBody (unicodeEscape c ++ tail) = prepend c (parseStringBody tail) := by
  have h1 := hexValue_hexDigit (c / 4096 % 16) (Nat.mod_lt _ (by decide))
  have h2 := hexValue_hexDigit (c / 256 % 16) (Nat.mod_lt _ (by decide))
  have h3 := hexValue_hexDigit (c / 16 % 16) (Nat.mod_lt _ (by decide))
  have h4 := hexValue_hexDigit (c % 16) (Nat.mod_lt _ (by decide))
  have hsum : c / 4096 % 16 * 4096 + c / 256 % 16 * 256 + c / 16 % 16 * 16 + c % 16 = c := by
    omega
  show parseStringBody (92 :: 117 :: hexDigit (c / 4096 % 16) :: hexDigit (c / 256 % 16) ::
    hexDigit (c / 16 % 16) :: hexDigit (c % 16) :: tail) = _
  rw [parseStringBody_cons]
  simp only [show ¬ (92 = 34) by decide, if_false, if_true, h1, h2, h3, h4, hsum]

theorem parseStringBody_literal (c : Nat) (h34 : c ≠ 34) (h92 : c ≠ 92) (h32 : ¬ c < 32)
    (tail : JSString) :
    parseStringBody (c :: tail) = prepend c (parseStringBody tail) := by
  rw [parseStringBody_cons]
  simp only [h34, h92, h32, if_false]

theorem parseStringBody_quoteUnit (c : Nat) (tail : JSString) :
    parseStringBody (quoteUnit c ++ tail) = prepend c (parseStringBody tail) := by
  unfold quoteUnit
  split_ifs with h8 h9 h10 h12 h13 h34 h92 h32 hs
  · subst h8; exact parseStringBody_escape 98 8 (by decide) (by decide) tail
  · subst h9; exact parseStringBody_escape 116 9 (by decide) (by decide) tail
  · subst h10; exact parseStringBody_escape 110 10 (by decide) (by decide) tail
  · subst h12; exact parseStringBody_escape 102 12 (by decide) (by decide) tail
  · subst h13; exact parseStringBody_escape 114 13 (by decide) (by decide) tail
  · subst h34; exact parseStringBody_escape 34 34 (by decide) (by decide) tail
  · subst h92; exact parseStringBody_escape 92 92 (by decide) (by decide) tail
  · exact parseStringBody_unicodeEscape c (by omega) tail
  · refine parseStringBody_unicodeEscape c ?_ tail
    simp only [isHighSurrogate, isLowSurrogate, Bool.or_eq_true, Bool.and_eq_true,
      decide_eq_true_eq] at hs
    omega
  · exact parseStringBody_literal c h34 h92 h32 tail

theorem parseStringBody_quote (rest : JSString) :
    parseStringBody (34 :: rest) = .ok ([], rest) := by
  rw [parseStringBody_cons]; rfl

theorem parseStringBody_quoteBody (s : JSString) :
    ∀ rest : JSString, parseStringBody (quoteBody s ++ 34 :: rest) = .ok (s, rest) := by
  induction s using quoteBody.induct with
  | case1 => intro rest; exact parseStringBody_quote rest
  | case2 c =>
    intro rest
    rw [quoteBody, parseStringBody_quoteUnit, parseStringBody_quote]
    rfl
  | case3 c d rest1 hpair ih =>
    intro rest
    have hp := hpair
    simp only [isHighSurrogate, isLowSurrogate, Bool.and_eq_true, decide_eq_true_eq] at hp
    rw [quoteBody, if_pos hpair]
    show parseStringBody (c :: d :: (quoteBody rest1 ++ 34 :: rest)) = _
    rw [parseStringBody_literal c (by omega) (by omega) (by omega),
      parseStringBody_literal d (by omega) (by omega) (by omega), ih rest]
    rfl
  | case4 c d rest1 hpair ih =>
    intro rest
    rw [quoteBody, if_neg hpair, List.append_assoc, parseStringBody_quoteUnit, ih rest]
    rfl


theorem skipWhiteSpace_cons (c : Nat) (rest : JSString)
    (h : c ≠ 9 ∧ c ≠ 10 ∧ c ≠ 13 ∧ c ≠ 32) : skipWhiteSpace (c :: rest) = c :: rest := by
  unfold skipWhiteSpace
  rw [List.dropWhile_cons]
  simp [h.1, h.2.1, h.2.2.1, h.2.2.2]

theorem parseValue_string (fuel : Nat) (s rest : JSString) :
    parseValue (fuel + 1) (quoteJSONString s ++ rest) = .ok (.string s, rest) := by
  show parseValue (fuel + 1) (34 :: (quoteBody s ++ [34] ++ rest)) = _
  rw [parseValue, skipWhiteSpace_cons 34 _ (by decide)]
  simp only [show ¬ (34 = 91) by decide, show ¬ (34 = 123) by decide, if_false, if_true,
    List.append_assoc, List.singleton_append, parseStringBody_quoteBody]

theorem parseMembers_more (fuel : Nat) (acc : List (JSString × JSON)) (key value rest : JSString) :
    parseMembers (fuel + 2) acc
        (quoteJSONString key ++ [58] ++ quoteJSONString value ++ 44 :: rest) =
      parseMembers (fuel + 1) (setMember acc key (.string value)) rest := by
  have hshape : quoteJSONString key ++ [58] ++ quoteJSONString value ++ 44 :: rest =
      34 :: (quoteBody key ++ 34 :: 58 :: (quoteJSONString value ++ 44 :: rest)) := by
    simp [quoteJSONString]
  rw [hshape]
  show parseMembers (fuel + 1 + 1) acc _ = _
  rw [parseMembers, skipWhiteSpace_cons 34 _ (by decide)]
  simp only [if_true]
  rw [parseStringBody_quoteBody]
  simp only []
  rw [skipWhiteSpace_cons 58 _ (by decide)]
  simp only [if_true]
  rw [parseValue_string]
  simp only []
  rw [skipWhiteSpace_cons 44 _ (by decide)]
  simp only [if_true]

theorem parseMembers_last (fuel : Nat) (acc : List (JSString × JSON)) (key value rest : JSString) :
    parseMembers (fuel + 2) acc
        (quoteJSONString key ++ [58] ++ quoteJSONString value ++ 125 :: rest) =
      .ok (.object (setMember acc key (.string value)), rest) := by
  have hshape : quoteJSONString key ++ [58] ++ quoteJSONString value ++ 125 :: rest =
      34 :: (quoteBody key ++ 34 :: 58 :: (quoteJSONString value ++ 125 :: rest)) := by
    simp [quoteJSONString]
  rw [hshape]
  show parseMembers (fuel + 1 + 1) acc _ = _
  rw [parseMembers, skipWhiteSpace_cons 34 _ (by decide)]
  simp only [if_true]
  rw [parseStringBody_quoteBody]
  simp only []
  rw [skipWhiteSpace_cons 58 _ (by decide)]
  simp only [if_true]
  rw [parseValue_string]
  simp only []
  rw [skipWhiteSpace_cons 125 _ (by decide)]
  simp only [show ¬ (125 = 44) by decide, if_false, if_true]

theorem parseValue_object (fuel : Nat) (key body : JSString) :
    parseValue (fuel + 2) (123 :: (quoteJSONString key ++ body)) =
      parseMembers (fuel + 1) [] (quoteJSONString key ++ body) := by
  show parseValue (fuel + 1 + 1) (123 :: 34 :: (quoteBody key ++ [34] ++ body)) = _
  rw [parseValue, skipWhiteSpace_cons 123 _ (by decide)]
  simp only [show ¬ (123 = 91) by decide, if_false, if_true]
  rw [skipWhiteSpace_cons 34 _ (by decide)]
  simp only [show ¬ (34 = 125) by decide, if_false]
  rfl

theorem parseValue_student (fuel : Nat) (s : Student) (rest : JSString) :
    parseValue (fuel + 9) (stringifyStudent s ++ rest) = .ok (studentValue s, rest) := by
  cases hu : s.updatedAt with
  | none =>
    have hshape : stringifyStudent s ++ rest = 123 ::
        (quoteJSONString (js "id") ++ [58] ++ quoteJSONString s.id ++ 44 ::
        (quoteJSONString (js "name") ++ [58] ++ quoteJSONString s.name ++ 44 ::
        (quoteJSONString (js "rollno") ++ [58] ++ quoteJSONString s.rollno ++ 44 ::
        (quoteJSONString (js "std") ++ [58] ++ quoteJSONString s.std ++ 44 ::
        (quoteJSONString (js "mobile") ++ [58] ++ quoteJSONString s.mobile ++ 44 ::
        (quoteJSONString (js "createdAt") ++ [58] ++ quoteJSONString s.createdAt ++ 125 ::
          rest)))))) := by
      simp [stringifyStudent, stringifyMember, hu, List.append_assoc]
    rw [hshape]
    simp only [List.append_assoc]
    refine (parseValue_object (fuel + 7) _ _).trans ?_
    simp only [← List.append_assoc]
    refine (parseMembers_more (fuel + 6) _ _ _ _).trans ?_
    refine (parseMembers_more (fuel + 5) _ _ _ _).trans ?_
    refine (parseMembers_more (fuel + 4) _ _ _ _).trans ?_
    refine (parseMembers_more (fuel + 3) _ _ _ _).trans ?_
    refine (parseMembers_more (fuel + 2) _ _ _ _).trans ?_
    refine (parseMembers_last (fuel + 1) _ _ _ _).trans ?_
    simp only [studentValue, hu]
    rfl
  | some u =>
    have hshape : stringifyStudent s ++ rest = 123 ::
        (quoteJSONString (js "id") ++ [58] ++ quoteJSONString s.id ++ 44 ::
        (quoteJSONString (js "name") ++ [58] ++ quoteJSONString s.name ++ 44 ::
        (quoteJSONString (js "rollno") ++ [58] ++ quoteJSONString s.rollno ++ 44 ::
        (quoteJSONString (js "std") ++ [58] ++ quoteJSONString s.std ++ 44 ::
        (quoteJSONString (js "mobile") ++ [58] ++ quoteJSONString s.mobile ++ 44 ::
        (quoteJSONString (js "createdAt") ++ [58] ++ quoteJSONString s.createdAt ++ 44 ::
        (quoteJSONString (js "updatedAt") ++ [58] ++ quoteJSONString u ++ 125 ::
          rest))))))) := by
      simp [stringifyStudent, stringifyMember, hu, List.append_assoc]
    rw [hshape]
    simp only [List.append_assoc]
    refine (parseValue_object (fuel + 7) _ _).trans ?_
    simp only [← List.append_assoc]
    refine (parseMembers_more (fuel + 6) _ _ _ _).trans ?_
    refine (parseMembers_more (fuel + 5) _ _ _ _).trans ?_
    refine (parseMembers_more (fuel + 4) _ _ _ _).trans ?_
    refine (parseMembers_more (fuel + 3) _ _ _ _).trans ?_
    refine (parseMembers_more (fuel + 2) _ _ _ _).trans ?_
    refine (parseMembers_more (fuel + 1) _ _ _ _).trans ?_
    refine (parseMembers_last fuel _ _ _ _).trans ?_
    simp only [studentValue, hu]
    rfl

theorem stringifyStudent_head (s : Student) :
    ∃ body, stringifyStudent s = 123 :: body ∧ 4 ≤ body.length := by
  have hlen : 5 ≤ (stringifyStudent s).length := by
    simp only [stringifyStudent, stringifyMember, quoteJSONString, List.length_append,
      List.length_cons, List.length_nil]
    omega
  refine ⟨(stringifyStudent s).tail, rfl, ?_⟩
  rw [List.length_tail]
  omega

theorem stringifyElements_cons (s : Student) (r : List Student) :
    ∃ body, stringifyElements (s :: r) = 123 :: body ∧ r.length + 4 ≤ body.length := by
  induction r generalizing s with
  | nil =>
    obtain ⟨body, hb, hl⟩ := stringifyStudent_head s
    exact ⟨body, by rw [stringifyElements, hb], by simpa using hl⟩
  | cons t r ih =>
    obtain ⟨body, hb, hl⟩ := stringifyStudent_head s
    obtain ⟨body2, hb2, hl2⟩ := ih t
    refine ⟨body ++ [44] ++ stringifyElements (t :: r), ?_, ?_⟩
    · rw [stringifyElements, hb]; rfl
    · rw [hb2]
      simp only [List.length_append, List.length_cons, List.length_nil]
      omega

theorem parseElements_roster : ∀ (r : List Student) (s : Student) (fuel : Nat)
    (acc : List JSON) (rest : JSString),
    parseElements (fuel + r.length + 10) acc (stringifyElements (s :: r) ++ 93 :: rest) =
      .ok (.array (acc ++ (s :: r).map studentValue), rest) := by
  intro r
  induction r with
  | nil =>
    intro s fuel acc rest
    show parseElements (fuel + 9 + 1) acc (stringifyStudent s ++ 93 :: rest) = _
    rw [parseElements, parseValue_student]
    simp only []
    rw [skipWhiteSpace_cons 93 _ (by decide)]
    simp only [show ¬ (93 = 44) by decide, if_false, if_true, List.map_cons, List.map_nil]
  | cons t r ih =>
    intro s fuel acc rest
    have hshape : stringifyElements (s :: t :: r) ++ 93 :: rest =
        stringifyStudent s ++ 44 :: (stringifyElements (t :: r) ++ 93 :: rest) := by
      rw [stringifyElements]; simp
    rw [hshape]
    show parseElements (fuel + r.length + 10 + 1) acc _ = _
    rw [parseElements]
    rw [show fuel + r.length + 10 = (fuel + r.length + 1) + 9 from rfl, parseValue_student]
    simp only []
    rw [skipWhiteSpace_cons 44 _ (by decide)]
    simp only [if_true]
    rw [show fuel + r.length + 1 + 9 = fuel + r.length + 10 from rfl, ih t fuel]
    simp

theorem JSON_parse_stringify (r : List Student) :
    JSON_parse (JSON_stringify r) = .ok (rosterValue r) := by
  cases r with
  | nil => rfl
  | cons s tl =>
    obtain ⟨body, hb, hl⟩ := stringifyElements_cons s tl
    have hlen : tl.length + 6 ≤ (JSON_stringify (s :: tl)).length := by
      simp only [JSON_stringify, hb, List.length_append, List.length_cons, List.length_nil]
      omega
    obtain ⟨f, hf⟩ : ∃ f, 2 * (JSON_stringify (s :: tl)).length + 2 = f + tl.length + 10 + 1 :=
      ⟨2 * (JSON_stringify (s :: tl)).length + 2 - (tl.length + 11), by omega⟩
    unfold JSON_parse
    rw [hf]
    have hshape : JSON_stringify (s :: tl) = 91 :: (stringifyElements (s :: tl) ++ 93 :: []) := by
      simp [JSON_stringify]
    rw [hshape, parseValue, skipWhiteSpace_cons 91 _ (by decide)]
    simp only [if_true]
    rw [hb]
    simp only [List.cons_append]
    rw [skipWhiteSpace_cons 123 _ (by decide)]
    simp only [show ¬ (123 = 93) by decide, if_false]
    rw [← List.cons_append, ← hb, parseElements_roster]
    simp [skipWhiteSpace, rosterValue]

theorem initialStudents_stringify (r : List Student) :
    initialStudents (some (JSON_stringify r)) = .ok (rosterValue r) := by
  unfold initialStudents
  simp only [JSON_parse_stringify]
  rfl

theorem studentValue_injective : Function.Injective studentValue := by
  intro a b h
  cases a with
  | mk i1 n1 r1 s1 m1 c1 u1 =>
    cases b with
    | mk i2 n2 r2 s2 m2 c2 u2 =>
      cases u1 <;> cases u2 <;> simp [studentValue] at h <;> simp [h]

/-! ## The parser never reaches its recursion bound -/

theorem skipWhiteSpace_length (s : JSString) : (skipWhiteSpace s).length ≤ s.length :=
  (List.dropWhile_sublist _).length_le

theorem span_snd_length (p : Nat → Bool) (l : List Nat) : (l.span p).2.length ≤ l.length := by
  rw [List.span_eq_take_drop]
  exact (List.dropWhile_sublist _).length_le

theorem prepend_total (u : Nat) (n m : Nat) (x : Except JSException (JSString × JSString))
    (hx : x ≠ .error .outOfFuel ∧ ∀ s r, x = .ok (s, r) → r.length < n) (hm : n + 1 ≤ m) :
    prepend u x ≠ .error .outOfFuel ∧ ∀ s r, prepend u x = .ok (s, r) → r.length < m := by
  cases x with
  | error err =>
    refine ⟨?_, fun s r h => by simp [prepend] at h⟩
    intro h
    apply hx.1
    simpa [prepend] using h
  | ok p =>
    obtain ⟨s0, r0⟩ := p
    refine ⟨by simp [prepend], ?_⟩
    intro s r h
    simp only [prepend, Except.ok.injEq, Prod.mk.injEq] at h
    have := hx.2 s0 r0 rfl
    rw [← h.2]
    omega

theorem parseStringBody_total : ∀ (n : Nat) (input : JSString), input.length ≤ n →
    parseStringBody input ≠ .error .outOfFuel ∧
    ∀ s r, parseStringBody input = .ok (s, r) → r.length < input.length := by
  intro n
  induction n with
  | zero =>
    intro input hlen
    have : input = [] := List.length_eq_zero.1 (by omega)
    subst this
    exact ⟨by simp [parseStringBody], fun s r h => by simp [parseStringBody] at h⟩
  | succ n ih =>
    intro input hlen
    cases input with
    | nil => exact ⟨by simp [parseStringBody], fun s r h => by simp [parseStringBody] at h⟩
    | cons c rest =>
      simp only [List.length_cons] at hlen ⊢
      rw [parseStringBody_cons]
      split_ifs with h34 h92 h32
      · refine ⟨by simp, fun s r h => ?_⟩
        simp only [Except.ok.injEq, Prod.mk.injEq] at h
        rw [← h.2]; omega
      · split
        · exact ⟨by simp, fun s r h => by simp at h⟩
        · rename_i e rest2
          simp only [List.length_cons] at hlen ⊢
          split_ifs with h117
          · split
            · rename_i h1 h2 h3 h4 rest3
              simp only [List.length_cons] at hlen ⊢
              split
              · exact prepend_total _ _ _ _ (ih rest3 (by omega)) (by omega)
              · exact ⟨by simp, fun s r h => by simp at h⟩
            · exact ⟨by simp, fun s r h => by simp at h⟩
          · split
            · exact prepend_total _ _ _ _ (ih rest2 (by omega)) (by omega)
            · exact ⟨by simp, fun s r h => by simp at h⟩
      · exact ⟨by simp, fun s r h => by simp at h⟩
      · exact prepend_total _ _ _ _ (ih rest (by omega)) (by omega)

theorem dropLiteral_length : ∀ (lit input r : JSString), dropLiteral lit input = some r →
    r.length ≤ input.length := by
  intro lit
  induction lit with
  | nil =>
    intro input r h
    simp only [dropLiteral, Option.some.injEq] at h
    rw [h]
  | cons a lit ih =>
    intro input r h
    cases input with
    | nil => simp [dropLiteral] at h
    | cons c input =>
      simp only [dropLiteral] at h
      split_ifs at h with hac
      have := ih input r h
      simp only [List.length_cons]
      omega

theorem parseInteger_total (input : JSString) :
    parseInteger input ≠ .error .outOfFuel ∧
    ∀ ds r, parseInteger input = .ok (ds, r) → r.length < input.length := by
  cases input with
  | nil => exact ⟨by simp [parseInteger], fun ds r h => by simp [parseInteger] at h⟩
  | cons c rest =>
    simp only [parseInteger]
    have := span_snd_length isDigit rest
    split_ifs
    · refine ⟨by simp, fun ds r h => ?_⟩
      simp only [Except.ok.injEq, Prod.mk.injEq] at h
      rw [← h.2]; simp
    · refine ⟨by simp, fun ds r h => ?_⟩
      simp only [Except.ok.injEq, Prod.mk.injEq] at h
      rw [← h.2]; simp only [List.length_cons]; omega
    · exact ⟨by simp, fun ds r h => by simp at h⟩

theorem parseDigits_total (input : JSString) :
    parseDigits input ≠ .error .outOfFuel ∧
    ∀ ds r, parseDigits input = .ok (ds, r) → r.length ≤ input.length := by
  unfold parseDigits
  have := span_snd_length isDigit input
  split_ifs
  · exact ⟨by simp, fun ds r h => by simp at h⟩
  · refine ⟨by simp, fun ds r h => ?_⟩
    have h2 : (input.span isDigit).2 = r := by
      have := Except.ok.inj h
      rw [this]
    rw [← h2]; exact this

theorem parseFraction_total (input : JSString) :
    parseFraction input ≠ .error .outOfFuel ∧
    ∀ ds r, parseFraction input = .ok (ds, r) → r.length ≤ input.length := by
  cases input with
  | nil =>
    refine ⟨by simp [parseFraction], fun ds r h => ?_⟩
    simp only [parseFraction, Except.ok.injEq, Prod.mk.injEq] at h
    rw [← h.2]
  | cons c rest =>
    simp only [parseFraction]
    split_ifs
    · have := parseDigits_total rest
      refine ⟨this.1, fun ds r h => ?_⟩
      have := this.2 ds r h
      simp only [List.length_cons]; omega
    · refine ⟨by simp, fun ds r h => ?_⟩
      simp only [Except.ok.injEq, Prod.mk.injEq] at h
      rw [← h.2]

theorem signedExponent_total (negative : Bool) (n : Nat)
    (x : Except JSException (List Nat × JSString))
    (hx : x ≠ .error .outOfFuel ∧ ∀ ds r, x = .ok (ds, r) → r.length ≤ n) :
    signedExponent negative x ≠ .error .outOfFuel ∧
    ∀ e r, signedExponent negative x = .ok (e, r) → r.length ≤ n := by
  cases x with
  | error err =>
    refine ⟨?_, fun e r h => by simp [signedExponent] at h⟩
    intro h
    apply hx.1
    simpa [signedExponent] using h
  | ok p =>
    obtain ⟨ds0, r0⟩ := p
    refine ⟨by simp [signedExponent], ?_⟩
    intro e r h
    simp only [signedExponent, Except.ok.injEq, Prod.mk.injEq] at h
    have := hx.2 ds0 r0 rfl
    rw [← h.2]
    exact this

theorem parseExponent_total (input : JSString) :
    parseExponent input ≠ .error .outOfFuel ∧
    ∀ e r, parseExponent input = .ok (e, r) → r.length ≤ input.length := by
  cases input with
  | nil =>
    refine ⟨by simp [parseExponent], fun e r h => ?_⟩
    simp only [parseExponent, Except.ok.injEq, Prod.mk.injEq] at h
    rw [← h.2]
  | cons c rest =>
    simp only [parseExponent]
    split_ifs with hc
    · cases rest with
      | nil => exact ⟨by simp, fun e r h => by simp at h⟩
      | cons sign rest2 =>
        simp only []
        have h1 := parseDigits_total rest2
        have h2 := parseDigits_total (sign :: rest2)
        simp only [List.length_cons] at h2 ⊢
        split_ifs
        · have := signedExponent_total true _ _ h1
          exact ⟨this.1, fun e r h => by have := this.2 e r h; omega⟩
        · have := signedExponent_total false _ _ h1
          exact ⟨this.1, fun e r h => by have := this.2 e r h; omega⟩
        · have := signedExponent_total false _ _ h2
          exact ⟨this.1, fun e r h => by have := this.2 e r h; omega⟩
    · refine ⟨by simp, fun e r h => ?_⟩
      simp only [Except.ok.injEq, Prod.mk.injEq] at h
      rw [← h.2]

theorem parseNumber_total (input : JSString) :
    parseNumber input ≠ .error .outOfFuel ∧
    ∀ v r, parseNumber input = .ok (v, r) → r.length < input.length := by
  unfold parseNumber
  simp only
  have htail : (if (input.head? == some 45) = true then input.tail else input).length ≤
      input.length := by
    split_ifs
    · rw [List.length_tail]; omega
    · exact le_refl _
  have hi := parseInteger_total (if (input.head? == some 45) = true then input.tail else input)
  cases h1 : parseInteger (if (input.head? == some 45) = true then input.tail else input) with
  | error err =>
    simp only []
    rw [h1] at hi
    exact ⟨fun h => hi.1 (by rw [Except.error.inj h]), fun v r h => by simp at h⟩
  | ok p1 =>
    obtain ⟨intDigits, rest1⟩ := p1
    simp only []
    have hl1 := hi.2 intDigits rest1 h1
    have hf := parseFraction_total rest1
    cases h2 : parseFraction rest1 with
    | error err =>
      simp only []
      rw [h2] at hf
      exact ⟨fun h => hf.1 (by rw [Except.error.inj h]), fun v r h => by simp at h⟩
    | ok p2 =>
      obtain ⟨fracDigits, rest2⟩ := p2
      simp only []
      have hl2 := hf.2 fracDigits rest2 h2
      have he := parseExponent_total rest2
      cases h3 : parseExponent rest2 with
      | error err =>
        simp only []
        rw [h3] at he
        exact ⟨fun h => he.1 (by rw [Except.error.inj h]), fun v r h => by simp at h⟩
      | ok p3 =>
        obtain ⟨e, rest3⟩ := p3
        simp only []
        have hl3 := he.2 e rest3 h3
        refine ⟨by simp, fun v r h => ?_⟩
        simp only [Except.ok.injEq, Prod.mk.injEq] at h
        rw [← h.2]; omega

theorem skipWhiteSpace_cons_length {s rest : JSString} {c : Nat}
    (h : skipWhiteSpace s = c :: rest) : rest.length + 1 ≤ s.length := by
  have := skipWhiteSpace_length s
  rw [h] at this
  simpa using this

theorem parse_total : ∀ (f : Nat),
    (∀ input : JSString, 2 * input.length + 1 ≤ f →
      parseValue f input ≠ .error .outOfFuel ∧
      ∀ v r, parseValue f input = .ok (v, r) → r.length < input.length) ∧
    (∀ (acc : List JSON) (input : JSString), 2 * input.length + 2 ≤ f →
      parseElements f acc input ≠ .error .outOfFuel ∧
      ∀ v r, parseElements f acc input = .ok (v, r) → r.length < input.length) ∧
    (∀ (acc : List (JSString × JSON)) (input : JSString), 2 * input.length + 2 ≤ f →
      parseMembers f acc input ≠ .error .outOfFuel ∧
      ∀ v r, parseMembers f acc input = .ok (v, r) → r.length < input.length) := by
  intro f
  induction f with
  | zero =>
    exact ⟨fun input h => by omega, fun acc input h => by omega, fun acc input h => by omega⟩
  | succ f ih =>
    obtain ⟨ihV, ihE, ihM⟩ := ih
    refine ⟨?_, ?_, ?_⟩
    · intro input hf
      rw [parseValue]
      cases hs : skipWhiteSpace input with
      | nil => exact ⟨by simp, fun v r h => by simp at h⟩
      | cons c rest =>
        have hl := skipWhiteSpace_cons_length hs
        simp only []
        split_ifs with h91 h123 h34 h116 h102 h110
        · cases hs2 : skipWhiteSpace rest with
          | nil => exact ⟨by simp, fun v r h => by simp at h⟩
          | cons d rest2 =>
            have hl2 := skipWhiteSpace_cons_length hs2
            simp only []
            split_ifs
            · refine ⟨by simp, fun v r h => ?_⟩
              simp only [Except.ok.injEq, Prod.mk.injEq] at h
              rw [← h.2]; omega
            · have := ihE [] rest (by omega)
              exact ⟨this.1, fun v r h => by have := this.2 v r h; omega⟩
        · cases hs2 : skipWhiteSpace rest with
          | nil => exact ⟨by simp, fun v r h => by simp at h⟩
          | cons d rest2 =>
            have hl2 := skipWhiteSpace_cons_length hs2
            simp only []
            split_ifs
            · refine ⟨by simp, fun v r h => ?_⟩
              simp only [Except.ok.injEq, Prod.mk.injEq] at h
              rw [← h.2]; omega
            · have := ihM [] rest (by omega)
              exact ⟨this.1, fun v r h => by have := this.2 v r h; omega⟩
        · have hp := parseStringBody_total rest.length rest (le_refl _)
          cases hb : parseStringBody rest with
          | error err =>
            rw [hb] at hp
            exact ⟨fun h => hp.1 (by rw [Except.error.inj h]), fun v r h => by simp at h⟩
          | ok p =>
            obtain ⟨s0, r0⟩ := p
            have := hp.2 s0 r0 hb
            refine ⟨by simp, fun v r h => ?_⟩
            simp only [Except.ok.injEq, Prod.mk.injEq] at h
            rw [← h.2]; omega
        · cases hd : dropLiteral [114, 117, 101] rest with
          | none => exact ⟨by simp, fun v r h => by simp at h⟩
          | some r0 =>
            have := dropLiteral_length _ _ _ hd
            refine ⟨by simp, fun v r h => ?_⟩
            simp only [Except.ok.injEq, Prod.mk.injEq] at h
            rw [← h.2]; omega
        · cases hd : dropLiteral [97, 108, 115, 101] rest with
          | none => exact ⟨by simp, fun v r h => by simp at h⟩
          | some r0 =>
            have := dropLiteral_length _ _ _ hd
            refine ⟨by simp, fun v r h => ?_⟩
            simp only [Except.ok.injEq, Prod.mk.injEq] at h
            rw [← h.2]; omega
        · cases hd : dropLiteral [117, 108, 108] rest with
          | none => exact ⟨by simp, fun v r h => by simp at h⟩
          | some r0 =>
            have := dropLiteral_length _ _ _ hd
            refine ⟨by simp, fun v r h => ?_⟩
            simp only [Except.ok.injEq, Prod.mk.injEq] at h
            rw [← h.2]; omega
        · have := parseNumber_total (c :: rest)
          refine ⟨this.1, fun v r h => ?_⟩
          have := this.2 v r h
          simp only [List.length_cons] at this
          omega
    · intro acc input hf
      rw [parseElements]
      have hv := ihV input (by omega)
      cases hp : parseValue f input with
      | error err =>
        rw [hp] at hv
        exact ⟨fun h => hv.1 (by rw [Except.error.inj h]), fun v r h => by simp at h⟩
      | ok p =>
        obtain ⟨v0, rest⟩ := p
        have hl := hv.2 v0 rest hp
        simp only []
        cases hs : skipWhiteSpace rest with
        | nil => exact ⟨by simp, fun v r h => by simp at h⟩
        | cons c rest2 =>
          have hl2 := skipWhiteSpace_cons_length hs
          simp only []
          split_ifs
          · have := ihE (acc ++ [v0]) rest2 (by omega)
            exact ⟨this.1, fun v r h => by have := this.2 v r h; omega⟩
          · refine ⟨by simp, fun v r h => ?_⟩
            simp only [Except.ok.injEq, Prod.mk.injEq] at h
            rw [← h.2]; omega
          · exact ⟨by simp, fun v r h => by simp at h⟩
    · intro acc input hf
      rw [parseMembers]
      cases hs : skipWhiteSpace input with
      | nil => exact ⟨by simp, fun v r h => by simp at h⟩
      | cons q rest =>
        have hl := skipWhiteSpace_cons_length hs
        simp only []
        split_ifs with hq
        · have hp := parseStringBody_total rest.length rest (le_refl _)
          cases hb : parseStringBody rest with
          | error err =>
            rw [hb] at hp
            exact ⟨fun h => hp.1 (by rw [Except.error.inj h]), fun v r h => by simp at h⟩
          | ok p =>
            obtain ⟨key, rest1⟩ := p
            have hl1 := hp.2 key rest1 hb
            simp only []
            cases hs1 : skipWhiteSpace rest1 with
            | nil => exact ⟨by simp, fun v r h => by simp at h⟩
            | cons colon rest2 =>
              have hl2 := skipWhiteSpace_cons_length hs1
              simp only []
              split_ifs with hcolon
              · have hv := ihV rest2 (by omega)
                cases hpv : parseValue f rest2 with
                | error err =>
                  rw [hpv] at hv
                  exact ⟨fun h => hv.1 (by rw [Except.error.inj h]),
                    fun v r h => by simp at h⟩
                | ok p =>
                  obtain ⟨v0, rest3⟩ := p
                  have hl3 := hv.2 v0 rest3 hpv
                  simp only []
                  cases hs3 : skipWhiteSpace rest3 with
                  | nil => exact ⟨by simp, fun v r h => by simp at h⟩
                  | cons c rest4 =>
                    have hl4 := skipWhiteSpace_cons_length hs3
                    simp only []
                    split_ifs
                    · have := ihM (setMember acc key v0) rest4 (by omega)
                      exact ⟨this.1, fun v r h => by have := this.2 v r h; omega⟩
                    · refine ⟨by simp, fun v r h => ?_⟩
                      simp only [Except.ok.injEq, Prod.mk.injEq] at h
                      rw [← h.2]; omega
                    · exact ⟨by simp, fun v r h => by simp at h⟩
              · exact ⟨by simp, fun v r h => by simp at h⟩
        · exact ⟨by simp, fun v r h => by simp at h⟩

theorem JSON_parse_total (text : JSString) : JSON_parse text ≠ .error .outOfFuel := by
  unfold JSON_parse
  have := ((parse_total (2 * text.length + 2)).1 text (by omega)).1
  cases hp : parseValue (2 * text.length + 2) text with
  | error err =>
    rw [hp] at this
    exact fun h => this (by rw [Except.error.inj h])
  | ok p =>
    obtain ⟨v, rest⟩ := p
    simp only []
    split_ifs <;> simp

/-! ## C10: the startup load -/

/-- C10 as stated fails: `JSON.parse` throws on text that is not well-formed
and the script does not catch it.  With a truncated snapshot in storage the
load ends in a SyntaxError instead of the empty roster; and stored text that is
well-formed JSON but no record list, here a string, becomes the value of
`students` as it is. -/
theorem load_malformed_raises :
    initialStudents (some (js "[\x7b\"id\":\"5\"")) = .error .syntaxError ∧
    initialStudents (some (js "students")) = .error .syntaxError ∧
    initialStudents (some (js "\"none\"")) = .ok (.string (js "none")) :=
  ⟨rfl, rfl, rfl⟩

/-- C10 (amended): when the storage holds no value the initial roster is the
empty array and no error is raised; when it holds the serialization of a
roster, as after every `saveToLocalStorage`, the initial roster is the array of
the same records with the same fields in the same order (the array determines
the roster); when `JSON.parse` throws its SyntaxError on the stored text, the
load throws it too instead of yielding the empty roster.  The recursion bound
of the parser model is never the cause of an error. -/
theorem initialStudents_load :
    initialStudents none = .ok (.array []) ∧
    (∀ r : List Student, initialStudents (some (JSON_stringify r)) = .ok (rosterValue r)) ∧
    (∀ w : State, initialStudents (saveToLocalStorage w).storage = .ok (rosterValue w.students)) ∧
    (∀ r1 r2 : List Student, rosterValue r1 = rosterValue r2 → r1 = r2) ∧
    (∀ text : JSString, JSON_parse text = .error .syntaxError →
      initialStudents (some text) = .error .syntaxError) ∧
    (∀ text : JSString, JSON_parse text ≠ .error .outOfFuel) := by
  refine ⟨rfl, initialStudents_stringify, fun w => initialStudents_stringify w.students, ?_, ?_,
    JSON_parse_total⟩
  · intro r1 r2 h
    simp only [rosterValue, JSON.array.injEq] at h
    exact List.map_injective_iff.2 studentValue_injective h
  · intro text h
    unfold initialStudents
    simp only [h]

end StudentDB
